import Mathlib

/-!
# Rollback: a value with a linear undo/redo history

Shallow embedding of `src/Rollback.hpp` (`my_lib::Rollback<T>`).

* `std::deque<T> data` is a `List T`, oldest entry first; `emplace_back` appends at the end,
  `pop_back` drops the last entry, `front`/`back` read the two ends and `at` is the
  bounds-checked lookup.
* `size_t index` and `data.size()` are natural numbers.  A deque never holds `2^64` entries,
  so `index + 1` and `++index` do not wrap for an index inside the deque; the unsigned
  subtraction `data.size() - 1`, which wraps on an empty deque, carries its wrap
  (`size_minus_one`).
* A member function either returns (`Outcome.ret`, with the returned value and the container
  afterwards) or does not return normally (`Outcome.abort`, with the container as it stood at
  that point): `at` out of range, `front`/`back`/`pop_back` on an empty deque, or an operator
  of `T` that produces no value.
* The operators the container needs from `T` are collected in the class `Arith`.
-/

namespace my_lib

/-! ## The value type -/

/-- The operations `Rollback<T>` uses from its value type `T`: `+`, `-`, `*` (total here),
`/` and `%` (no value when `T`'s operator fails, e.g. on a zero divisor), the value the
literal `1` converts to, and the conversion to `bool` behind `!`. -/
class Arith (T : Type) where
  add : T → T → T
  sub : T → T → T
  mul : T → T → T
  div : T → T → Option T
  mod : T → T → Option T
  one : T
  toBool : T → Bool

/-- The least value of the 32-bit `int`. -/
def INT_MIN : Int := -2147483648

/-- The greatest value of the 32-bit `int`. -/
def INT_MAX : Int := 2147483647

/-- The integers an `int` can hold. -/
def in_int (x : Int) : Prop := INT_MIN ≤ x ∧ x ≤ INT_MAX

instance instDecidableInInt (x : Int) : Decidable (in_int x) :=
  inferInstanceAs (Decidable (INT_MIN ≤ x ∧ x ≤ INT_MAX))

/-- The `int` that a mathematical result becomes: reduced modulo `2^32` into
`INT_MIN .. INT_MAX` (two's complement). -/
def wrap_int (x : Int) : Int := (x + 2147483648) % 4294967296 - 2147483648

/-- The 32-bit `int` as the value type, its values being the integers in
`INT_MIN .. INT_MAX`: `+`, `-`, `*` give the mathematical result when an `int` can hold it
and wrap around otherwise (`2147483647 + 1` is `-2147483648`); `/` and `%` truncate toward
zero and have no value on a zero divisor and on `INT_MIN / -1`, `INT_MIN % -1`, where the
program stops. -/
instance instArithInt : Arith Int where
  add a b := wrap_int (a + b)
  sub a b := wrap_int (a - b)
  mul a b := wrap_int (a * b)
  div a b := if b = 0 ∨ (a = INT_MIN ∧ b = -1) then none else some (Int.tdiv a b)
  mod a b := if b = 0 ∨ (a = INT_MIN ∧ b = -1) then none else some (Int.tmod a b)
  one := 1
  toBool a := decide (a ≠ 0)

/-! ## The deque -/

/-- `std::deque::emplace_back`. -/
def emplace_back {T : Type} (d : List T) (t : T) : List T := d ++ [t]

/-- `std::deque::pop_back`; undefined on an empty deque (`none`). -/
def pop_back {T : Type} : List T → Option (List T)
  | [] => none
  | x :: xs => some (x :: xs).dropLast

/-- `std::deque::front`; undefined on an empty deque (`none`). -/
def front {T : Type} (d : List T) : Option T := d.head?

/-- `std::deque::back`; undefined on an empty deque (`none`). -/
def back {T : Type} (d : List T) : Option T := d.getLast?

/-- `std::deque::at`: bounds-checked lookup, `none` when it throws `std::out_of_range`. -/
def deque_at {T : Type} (d : List T) (i : Nat) : Option T := d[i]?

/-- The `size_t` value of `n - 1`: wraps to `2^64 - 1` at `n = 0`. -/
def size_minus_one (n : Nat) : Nat := if n = 0 then 2 ^ 64 - 1 else n - 1

/-! ## The container -/

/-- The two data members of `Rollback<T>`. -/
structure Rollback (T : Type) where
  data : List T
  index : Nat
deriving DecidableEq

/-- How a member function call ends: `ret v s` returns `v` and leaves the container `s`;
`abort s` does not return normally, the container being `s` at that point. -/
inductive Outcome (T α : Type) where
  | ret (value : α) (s : Rollback T)
  | abort (s : Rollback T)
deriving DecidableEq

/-- The container an outcome leaves behind. -/
def Outcome.state {T α : Type} : Outcome T α → Rollback T
  | .ret _ s => s
  | .abort s => s

/-- The returned value, if the call returned. -/
def Outcome.value? {T α : Type} : Outcome T α → Option α
  | .ret v _ => some v
  | .abort _ => none

/-- Forget the returned value. -/
def Outcome.void {T α : Type} : Outcome T α → Outcome T Unit
  | .ret _ s => .ret () s
  | .abort s => .abort s

/-- `Rollback(T t) : index(0) { data.emplace_back(t); }`. -/
def Rollback.construct {T : Type} (t : T) : Rollback T :=
  { data := emplace_back [] t, index := 0 }

/-- `size()`. -/
def size {T : Type} (s : Rollback T) : Nat := s.data.length

/-- `can_undo()`: `index > 0`. -/
def can_undo {T : Type} (s : Rollback T) : Bool := decide (s.index > 0)

/-- `can_redo()`: `index < data.size() - 1`. -/
def can_redo {T : Type} (s : Rollback T) : Bool :=
  decide (s.index < size_minus_one s.data.length)

/-- `get()`: `return data.at(index);`. -/
def get {T : Type} (s : Rollback T) : Outcome T T :=
  match deque_at s.data s.index with
  | some v => .ret v s
  | none => .abort s

/-- `return data.back();` at the end of a member function. -/
def ret_back {T : Type} (s : Rollback T) : Outcome T T :=
  match back s.data with
  | some v => .ret v s
  | none => .abort s

/-- `return data.front();` at the end of a member function. -/
def ret_front {T : Type} (s : Rollback T) : Outcome T T :=
  match front s.data with
  | some v => .ret v s
  | none => .abort s

/-- How the truncation loop of `set` ends: the guard became false (`done`, with the deque
and the number of `pop_back` calls made), `pop_back` was called on an empty deque
(`pop_empty`), or the iteration budget ran out (`out_of_fuel`). -/
inductive Truncated (T : Type) where
  | done (data : List T) (pops : Nat)
  | pop_empty (pops : Nat)
  | out_of_fuel
deriving DecidableEq

/-- `while (data.size() != index + 1) data.pop_back();` run for at most `fuel` further
iterations, `pops` counting the iterations made so far. -/
def set_loop {T : Type} (index : Nat) : Nat → List T → Nat → Truncated T
  | 0, data, pops =>
    if data.length ≠ index + 1 then
      match pop_back data with
      | none => .pop_empty pops
      | some _ => .out_of_fuel
    else .done data pops
  | fuel + 1, data, pops =>
    if data.length ≠ index + 1 then
      match pop_back data with
      | none => .pop_empty pops
      | some d => set_loop index fuel d (pops + 1)
    else .done data pops

/-- `set(T t)`: truncate after `index`, append `t`, move `index` to the last entry.  The
loop gets `data.size()` iterations, which it cannot use up (`set_loop_fuel`). -/
def set {T : Type} (s : Rollback T) (t : T) : Outcome T Unit :=
  match set_loop s.index s.data.length s.data 0 with
  | .done d _ =>
    let d1 := emplace_back d t
    .ret () { data := d1, index := size_minus_one d1.length }
  | .pop_empty _ => .abort { data := [], index := s.index }
  | .out_of_fuel => .abort s

/-- The variadic `set(Args... args)`: the same body, `emplace_back(args...)` building the
new entry in place; `t` is the value of type `T` the arguments construct. -/
def set_args {T : Type} (s : Rollback T) (t : T) : Outcome T Unit :=
  match set_loop s.index s.data.length s.data 0 with
  | .done d _ =>
    let d1 := emplace_back d t
    .ret () { data := d1, index := size_minus_one d1.length }
  | .pop_empty _ => .abort { data := [], index := s.index }
  | .out_of_fuel => .abort s

/-- `undo()`: `if (index > 0) --index; return data.at(index);`. -/
def undo {T : Type} (s : Rollback T) : Outcome T T :=
  get (if s.index > 0 then { s with index := s.index - 1 } else s)

/-- `redo()`: `if (index < data.size() - 1) ++index; return data.at(index);`. -/
def redo {T : Type} (s : Rollback T) : Outcome T T :=
  get (if s.index < size_minus_one s.data.length then { s with index := s.index + 1 } else s)

/-- `reset()`: keep a copy of `data.front()`, clear, `index = 0`, append the copy,
return `data.front()`. -/
def reset {T : Type} (s : Rollback T) : Outcome T T :=
  match front s.data with
  | none => .abort s
  | some tmp => ret_front { data := emplace_back [] tmp, index := 0 }

/-- `compress()`: keep copies of `data.front()` and `data.back()`, clear, `index = 1`,
append both, return `data.back()`. -/
def compress {T : Type} (s : Rollback T) : Outcome T T :=
  match front s.data, back s.data with
  | some tmp_front, some tmp_back =>
    ret_back { data := emplace_back (emplace_back [] tmp_front) tmp_back, index := 1 }
  | _, _ => .abort s

/-- The shape shared by the mutating operators: `const T tmp = data.at(index);`, compute
the new value from `tmp` (no value: the operator of `T` failed, nothing was committed),
`set(value); return data.back();`. -/
def commit_with {T : Type} (s : Rollback T) (f : T → Option T) : Outcome T T :=
  match deque_at s.data s.index with
  | none => .abort s
  | some tmp =>
    match f tmp with
    | none => .abort s
    | some v =>
      match set s v with
      | .ret _ s1 => ret_back s1
      | .abort s1 => .abort s1

/-- `operator =(T t)`: `set(t); return data.back();`. -/
def assign {T : Type} (s : Rollback T) (t : T) : Outcome T T :=
  match set s t with
  | .ret _ s1 => ret_back s1
  | .abort s1 => .abort s1

/-- `operator +=(T t)`: commits `tmp + t`. -/
def add_assign {T : Type} [Arith T] (s : Rollback T) (t : T) : Outcome T T :=
  commit_with s (fun tmp => some (Arith.add tmp t))

/-- `operator -=(T t)`: commits `tmp - t`. -/
def sub_assign {T : Type} [Arith T] (s : Rollback T) (t : T) : Outcome T T :=
  commit_with s (fun tmp => some (Arith.sub tmp t))

/-- `operator *=(T t)`: commits `tmp * t`. -/
def mul_assign {T : Type} [Arith T] (s : Rollback T) (t : T) : Outcome T T :=
  commit_with s (fun tmp => some (Arith.mul tmp t))

/-- `operator /=(T t)`: commits `tmp / t`. -/
def div_assign {T : Type} [Arith T] (s : Rollback T) (t : T) : Outcome T T :=
  commit_with s (fun tmp => Arith.div tmp t)

/-- `operator %=(T t)`: the source commits `tmp / t`. -/
def mod_assign {T : Type} [Arith T] (s : Rollback T) (t : T) : Outcome T T :=
  commit_with s (fun tmp => Arith.div tmp t)

/-- `operator ++()`: commits `tmp + 1`, returns `data.back()`. -/
def pre_increment {T : Type} [Arith T] (s : Rollback T) : Outcome T T :=
  commit_with s (fun tmp => some (Arith.add tmp Arith.one))

/-- `operator --()`: commits `tmp - 1`, returns `data.back()`. -/
def pre_decrement {T : Type} [Arith T] (s : Rollback T) : Outcome T T :=
  commit_with s (fun tmp => some (Arith.sub tmp Arith.one))

/-- `operator ++(int)`: commits `tmp + 1`, returns the copy `tmp`. -/
def post_increment {T : Type} [Arith T] (s : Rollback T) : Outcome T T :=
  match deque_at s.data s.index with
  | none => .abort s
  | some tmp =>
    match set s (Arith.add tmp Arith.one) with
    | .ret _ s1 => .ret tmp s1
    | .abort s1 => .abort s1

/-- `operator --(int)`: commits `tmp - 1`.  Its last statement is `return T;`, which names
the type and is no value, so the embedding gives the effect on the container only. -/
def post_decrement {T : Type} [Arith T] (s : Rollback T) : Outcome T Unit :=
  match deque_at s.data s.index with
  | none => .abort s
  | some tmp => set s (Arith.sub tmp Arith.one)

/-- `for (size_t i = 0; i < n; ++i) undo();`. -/
def undo_loop {T : Type} : Nat → Rollback T → Outcome T Unit
  | 0, s => .ret () s
  | n + 1, s =>
    match undo s with
    | .ret _ s1 => undo_loop n s1
    | .abort s1 => .abort s1

/-- `for (size_t i = 0; i < n; ++i) redo();`. -/
def redo_loop {T : Type} : Nat → Rollback T → Outcome T Unit
  | 0, s => .ret () s
  | n + 1, s =>
    match redo s with
    | .ret _ s1 => redo_loop n s1
    | .abort s1 => .abort s1

/-- `operator <<(size_t n)`: `n` times `undo()`, then `return data.at(index);`. -/
def shift_left {T : Type} (s : Rollback T) (n : Nat) : Outcome T T :=
  match undo_loop n s with
  | .ret _ s1 => get s1
  | .abort s1 => .abort s1

/-- `operator >>(size_t n)`: `n` times `redo()`, then `return data.at(index);`. -/
def shift_right {T : Type} (s : Rollback T) (n : Nat) : Outcome T T :=
  match redo_loop n s with
  | .ret _ s1 => get s1
  | .abort s1 => .abort s1

/-! ## The operators that read the current value -/

/-- The shape shared by the member operators `+ - * / %`: `const T tmp = data.at(index);`
then `return tmp op t;`.  They are `const` members: the container is the same afterwards. -/
def read_with {T : Type} (s : Rollback T) (f : T → Option T) : Outcome T T :=
  match deque_at s.data s.index with
  | none => .abort s
  | some tmp =>
    match f tmp with
    | none => .abort s
    | some v => .ret v s

/-- `operator +(T t) const`: `return tmp + t;`. -/
def operator_add {T : Type} [Arith T] (s : Rollback T) (t : T) : Outcome T T :=
  read_with s (fun tmp => some (Arith.add tmp t))

/-- `operator -(T t) const`: `return tmp - t;`. -/
def operator_sub {T : Type} [Arith T] (s : Rollback T) (t : T) : Outcome T T :=
  read_with s (fun tmp => some (Arith.sub tmp t))

/-- `operator *(T t) const`: `return tmp * t;`. -/
def operator_mul {T : Type} [Arith T] (s : Rollback T) (t : T) : Outcome T T :=
  read_with s (fun tmp => some (Arith.mul tmp t))

/-- `operator /(T t) const`: `return tmp / t;`. -/
def operator_div {T : Type} [Arith T] (s : Rollback T) (t : T) : Outcome T T :=
  read_with s (fun tmp => Arith.div tmp t)

/-- `operator %(T t) const`: `return tmp % t;`. -/
def operator_mod {T : Type} [Arith T] (s : Rollback T) (t : T) : Outcome T T :=
  read_with s (fun tmp => Arith.mod tmp t)

/-- `operator !() const`: `return !data.at(index);`. -/
def operator_not {T : Type} [Arith T] (s : Rollback T) : Outcome T Bool :=
  match deque_at s.data s.index with
  | none => .abort s
  | some v => .ret (!Arith.toBool v) s

/-- `operator T() const`: `return data.at(index);`. -/
def operator_T {T : Type} (s : Rollback T) : Outcome T T :=
  match deque_at s.data s.index with
  | none => .abort s
  | some v => .ret v s

/-- The shape shared by the free operators `lhs op rhs` with the container on the right:
`const T tmp = rhs.get();` then `return lhs op tmp;`. -/
def free_with {T : Type} (rhs : Rollback T) (f : T → Option T) : Outcome T T :=
  match get rhs with
  | .abort s1 => .abort s1
  | .ret tmp s1 =>
    match f tmp with
    | none => .abort s1
    | some v => .ret v s1

/-- `operator +(const T& lhs, const Rollback<T>& rhs)`: `return lhs + tmp;`. -/
def free_add {T : Type} [Arith T] (lhs : T) (rhs : Rollback T) : Outcome T T :=
  free_with rhs (fun tmp => some (Arith.add lhs tmp))

/-- `operator -(const T& lhs, const Rollback<T>& rhs)`: `return lhs - tmp;`. -/
def free_sub {T : Type} [Arith T] (lhs : T) (rhs : Rollback T) : Outcome T T :=
  free_with rhs (fun tmp => some (Arith.sub lhs tmp))

/-- `operator *(const T& lhs, const Rollback<T>& rhs)`: `return lhs * tmp;`. -/
def free_mul {T : Type} [Arith T] (lhs : T) (rhs : Rollback T) : Outcome T T :=
  free_with rhs (fun tmp => some (Arith.mul lhs tmp))

/-- `operator /(const T& lhs, const Rollback<T>& rhs)`: `return lhs / tmp;`. -/
def free_div {T : Type} [Arith T] (lhs : T) (rhs : Rollback T) : Outcome T T :=
  free_with rhs (fun tmp => Arith.div lhs tmp)

/-- `operator %(const T& lhs, const Rollback<T>& rhs)`: `return lhs % tmp;`. -/
def free_mod {T : Type} [Arith T] (lhs : T) (rhs : Rollback T) : Outcome T T :=
  free_with rhs (fun tmp => Arith.mod lhs tmp)

/-! ## Assignment from another container -/

/-- How a call of `operator =(Rollback<T> t)` ends within a bound on the depth of nested
calls: it returned, leaving `self` (the returned `*this`) and the argument's source `other`
as given, or the bound was reached with the call still open. -/
inductive Assigned (T : Type) where
  | returned (self other : Rollback T)
  | still_calling
deriving DecidableEq

/-- `operator =(Rollback<T> t)`: `*this = t; return *this;`.  The class declares no other
assignment taking a `Rollback<T>` (a user-declared `operator =(Rollback<T>)` is its copy
assignment operator), so the statement `*this = t` calls this same function with a copy of
`t`; `depth` bounds the nesting of these calls.  `self` is `*this`, `other` the container
the caller passed. -/
def operator_assign {T : Type} : Nat → Rollback T → Rollback T → Assigned T
  | 0, _, _ => .still_calling
  | depth + 1, self, other =>
    match operator_assign depth self other with
    | .returned self1 _ => .returned self1 other
    | .still_calling => .still_calling

/-! ## Valid states and call sequences -/

/-- The invariant of the specification: `size() ≥ 1` and `0 ≤ cursor < size()`. -/
def Valid {T : Type} (s : Rollback T) : Prop :=
  1 ≤ size s ∧ 0 ≤ s.index ∧ s.index < size s

instance instDecidableValid {T : Type} (s : Rollback T) : Decidable (Valid s) :=
  inferInstanceAs (Decidable (1 ≤ size s ∧ 0 ≤ s.index ∧ s.index < size s))

/-- One call of a public state-changing operation. -/
inductive Call (T : Type) where
  | set (t : T)
  | set_args (t : T)
  | assign (t : T)
  | undo
  | redo
  | reset
  | compress
  | add_assign (t : T)
  | sub_assign (t : T)
  | mul_assign (t : T)
  | div_assign (t : T)
  | mod_assign (t : T)
  | pre_increment
  | post_increment
  | pre_decrement
  | post_decrement
  | shift_left (n : Nat)
  | shift_right (n : Nat)

/-- Perform one call, forgetting the returned value. -/
def step {T : Type} [Arith T] (s : Rollback T) : Call T → Outcome T Unit
  | .set t => set s t
  | .set_args t => set_args s t
  | .assign t => (assign s t).void
  | .undo => (undo s).void
  | .redo => (redo s).void
  | .reset => (reset s).void
  | .compress => (compress s).void
  | .add_assign t => (add_assign s t).void
  | .sub_assign t => (sub_assign s t).void
  | .mul_assign t => (mul_assign s t).void
  | .div_assign t => (div_assign s t).void
  | .mod_assign t => (mod_assign s t).void
  | .pre_increment => (pre_increment s).void
  | .post_increment => (post_increment s).void
  | .pre_decrement => (pre_decrement s).void
  | .post_decrement => post_decrement s
  | .shift_left n => (shift_left s n).void
  | .shift_right n => (shift_right s n).void

/-- Perform a sequence of calls one after the other; a call that does not return ends the
run, with the container as it stood. -/
def run {T : Type} [Arith T] : Rollback T → List (Call T) → Outcome T Unit
  | s, [] => .ret () s
  | s, c :: cs =>
    match step s c with
    | .ret _ s1 => run s1 cs
    | .abort s1 => .abort s1

/-- Spec §4.3 `undo_by(n)`, in the words of the specification: apply `undo` `n` times in
sequence (the container after the `n` calls). -/
def undo_by {T : Type} : Nat → Rollback T → Rollback T
  | 0, s => s
  | n + 1, s => undo_by n (undo s).state

/-- Spec §4.3 `redo_by(n)`, in the words of the specification: apply `redo` `n` times in
sequence (the container after the `n` calls). -/
def redo_by {T : Type} : Nat → Rollback T → Rollback T
  | 0, s => s
  | n + 1, s => redo_by n (redo s).state

/-- Spec §4.2, a commit of `v` on `s` seen from outside: the outcome `o` returns `v` and
leaves the container that `set(v)` produces from `s`, whose entries are those of `s` up to
the cursor followed by `v`, with the cursor on `v`, so that `get()` is `v`. -/
def Commits {T : Type} (s : Rollback T) (v : T) (o : Outcome T T) : Prop :=
  ∃ s1, set s v = .ret () s1 ∧ o = .ret v s1 ∧
    s1.data = s.data.take (s.index + 1) ++ [v] ∧ s1.index = s.index + 1 ∧
    s1.index = size s1 - 1 ∧ get s1 = .ret v s1

/-- A container reachable from construction: the one left behind by some finite sequence
of calls on a freshly constructed container. -/
def Reachable {T : Type} [Arith T] (s : Rollback T) : Prop :=
  ∃ (seed : T) (cs : List (Call T)), (run (Rollback.construct seed) cs).state = s

/-! ## Basic facts about the operations -/

theorem size_minus_one_pos {n : Nat} (h : 0 < n) : size_minus_one n = n - 1 := by
  unfold size_minus_one
  rw [if_neg (by omega)]

theorem pop_back_of_ne_nil {T : Type} {d : List T} (h : d ≠ []) :
    pop_back d = some d.dropLast := by
  cases d with
  | nil => exact absurd rfl h
  | cons x xs => rfl

/-- The truncation loop, started inside the deque with enough iterations left, stops with
the first `index + 1` entries after `data.size() - (index + 1)` pops. -/
theorem set_loop_done {T : Type} (index : Nat) :
    ∀ (fuel : Nat) (data : List T) (pops : Nat), index < data.length →
      data.length ≤ fuel + (index + 1) →
      set_loop index fuel data pops
        = .done (data.take (index + 1)) (pops + (data.length - (index + 1))) := by
  intro fuel
  induction fuel with
  | zero =>
    intro data pops hlt hle
    have hlen : data.length = index + 1 := by omega
    simp [set_loop, hlen, List.take_of_length_le (Nat.le_of_eq hlen)]
  | succ fuel ih =>
    intro data pops hlt hle
    by_cases hlen : data.length = index + 1
    · simp [set_loop, hlen, List.take_of_length_le (Nat.le_of_eq hlen)]
    · have hne : data ≠ [] := by
        intro h
        rw [h] at hlt
        exact Nat.not_lt_zero _ hlt
      have hdl : data.dropLast.length = data.length - 1 := List.length_dropLast data
      have hih := ih data.dropLast (pops + 1) (by omega) (by omega)
      have htake : data.dropLast.take (index + 1) = data.take (index + 1) := by
        rw [List.dropLast_eq_take, List.take_take]
        congr 1
        omega
      rw [htake, hdl] at hih
      simp only [set_loop, ne_eq, hlen, not_false_eq_true, if_true, pop_back_of_ne_nil hne]
      rw [hih]
      congr 1
      omega

/-- On a valid container `set` returns, with the entries up to the cursor kept, the value
appended and the cursor on it. -/
theorem set_of_valid {T : Type} (s : Rollback T) (t : T) (h : Valid s) :
    set s t = .ret () ⟨s.data.take (s.index + 1) ++ [t], s.index + 1⟩ := by
  obtain ⟨_, _, hlt⟩ := h
  unfold size at hlt
  have hloop := set_loop_done s.index s.data.length s.data 0 hlt (by omega)
  have hlen : (s.data.take (s.index + 1) ++ [t]).length = s.index + 2 := by
    simp [List.length_take]
    omega
  unfold set
  rw [hloop]
  simp only [emplace_back, hlen]
  rw [size_minus_one_pos (by omega)]
  rfl

/-- With `data.size()` iterations the truncation loop never runs out of iterations. -/
theorem set_loop_fuel {T : Type} (index : Nat) :
    ∀ (fuel : Nat) (data : List T) (pops : Nat), data.length ≤ fuel →
      set_loop index fuel data pops ≠ .out_of_fuel := by
  intro fuel
  induction fuel with
  | zero =>
    intro data pops hle
    have hnil : data = [] := List.eq_nil_of_length_eq_zero (by omega)
    subst hnil
    simp [set_loop, pop_back]
  | succ fuel ih =>
    intro data pops hle
    cases data with
    | nil => simp [set_loop, pop_back]
    | cons x xs =>
      by_cases hlen : (x :: xs).length = index + 1
      · simp [set_loop, hlen]
      · have hdl : (x :: xs).dropLast.length ≤ fuel := by
          rw [List.length_dropLast]
          simp only [List.length_cons] at hle ⊢
          omega
        simp only [set_loop, ne_eq, hlen, not_false_eq_true, if_true, pop_back]
        exact ih _ _ hdl

theorem at_of_lt {T : Type} {d : List T} {i : Nat} (h : i < d.length) :
    deque_at d i = some d[i] := by
  unfold deque_at
  exact List.getElem?_eq_getElem h

theorem at_of_valid {T : Type} {s : Rollback T} (h : Valid s) :
    ∃ v, deque_at s.data s.index = some v :=
  ⟨_, at_of_lt h.2.2⟩

theorem get_of_at {T : Type} {s : Rollback T} {v : T}
    (h : deque_at s.data s.index = some v) : get s = .ret v s := by
  unfold get
  rw [h]

theorem get_state {T : Type} (s : Rollback T) : (get s).state = s := by
  unfold get
  cases deque_at s.data s.index <;> rfl

/-- `undo` moves the cursor to `index - 1` (which is `0` at `index = 0`) and reads there. -/
theorem undo_eq_get {T : Type} (s : Rollback T) : undo s = get ⟨s.data, s.index - 1⟩ := by
  unfold undo
  by_cases h : s.index > 0
  · rw [if_pos h]
  · rw [if_neg h]
    have h0 : s.index = 0 := by omega
    cases s with
    | mk data index =>
      simp only at h0
      subst h0
      rfl

/-- On a valid container `redo` moves the cursor to `min (index + 1) (size() - 1)` and
reads there. -/
theorem redo_eq_get {T : Type} (s : Rollback T) (h : Valid s) :
    redo s = get ⟨s.data, min (s.index + 1) (s.data.length - 1)⟩ := by
  obtain ⟨h1, _, hlt⟩ := h
  unfold size at h1 hlt
  unfold redo
  rw [size_minus_one_pos (by omega)]
  by_cases hc : s.index < s.data.length - 1
  · rw [if_pos hc, Nat.min_eq_left (by omega)]
  · rw [if_neg hc]
    have h0 : min (s.index + 1) (s.data.length - 1) = s.index := by
      rw [Nat.min_eq_right (by omega)]
      omega
    rw [h0]

theorem ret_back_append {T : Type} (d : List T) (t : T) (i : Nat) :
    ret_back ⟨d ++ [t], i⟩ = .ret t ⟨d ++ [t], i⟩ := by
  simp [ret_back, back]

theorem valid_append {T : Type} (s : Rollback T) (t : T) (h : Valid s) :
    Valid (⟨s.data.take (s.index + 1) ++ [t], s.index + 1⟩ : Rollback T) := by
  obtain ⟨_, _, hlt⟩ := h
  unfold size at hlt
  unfold Valid size
  simp only [List.length_append, List.length_take, List.length_singleton]
  omega

/-- The assignment of a value on a valid container. -/
theorem assign_of_valid {T : Type} (s : Rollback T) (t : T) (h : Valid s) :
    assign s t = .ret t ⟨s.data.take (s.index + 1) ++ [t], s.index + 1⟩ := by
  unfold assign
  rw [set_of_valid s t h]
  exact ret_back_append _ _ _

/-- A mutating operator whose new value is computed commits it as `set` would and returns
it. -/
theorem commit_with_some {T : Type} (s : Rollback T) (f : T → Option T) (cur v : T)
    (h : Valid s) (hcur : deque_at s.data s.index = some cur) (hv : f cur = some v) :
    commit_with s f = .ret v ⟨s.data.take (s.index + 1) ++ [v], s.index + 1⟩ := by
  unfold commit_with
  rw [hcur]
  simp only [hv]
  rw [set_of_valid s v h]
  exact ret_back_append _ _ _

/-- A mutating operator whose new value is not computed leaves the container as it was. -/
theorem commit_with_none {T : Type} (s : Rollback T) (f : T → Option T) (cur : T)
    (hcur : deque_at s.data s.index = some cur) (hv : f cur = none) :
    commit_with s f = .abort s := by
  unfold commit_with
  rw [hcur]
  simp only [hv]

theorem valid_of_lt {T : Type} {d : List T} {i : Nat} (h : i < d.length) :
    Valid (⟨d, i⟩ : Rollback T) := by
  unfold Valid size
  simp only
  omega

theorem get_of_lt {T : Type} {d : List T} {i : Nat} (h : i < d.length) :
    get (⟨d, i⟩ : Rollback T) = .ret d[i] ⟨d, i⟩ :=
  get_of_at (at_of_lt h)

/-- The undo loop on a valid container: all `n` calls return, the entries stay, and the
cursor ends `n` lower, stopping at `0`. -/
theorem undo_loop_of_valid {T : Type} :
    ∀ (n : Nat) (s : Rollback T), Valid s → undo_loop n s = .ret () ⟨s.data, s.index - n⟩ := by
  intro n
  induction n with
  | zero => intro s _; rfl
  | succ n ih =>
    intro s h
    have hlt : s.index - 1 < s.data.length := by
      have := h.2.2
      unfold size at this
      omega
    have hstep := ih ⟨s.data, s.index - 1⟩ (valid_of_lt hlt)
    simp only [undo_loop, undo_eq_get, get_of_lt hlt]
    rw [hstep]
    simp only [Outcome.ret.injEq, Rollback.mk.injEq, true_and]
    omega

/-- The redo loop on a valid container: all `n` calls return, the entries stay, and the
cursor ends `n` higher, stopping at the last index. -/
theorem redo_loop_of_valid {T : Type} :
    ∀ (n : Nat) (s : Rollback T), Valid s →
      redo_loop n s = .ret () ⟨s.data, min (s.index + n) (s.data.length - 1)⟩ := by
  intro n
  induction n with
  | zero =>
    intro s h
    have := h.2.2
    unfold size at this
    simp only [redo_loop, Nat.add_zero]
    rw [Nat.min_eq_left (by omega)]
  | succ n ih =>
    intro s h
    have hs := h.2.2
    unfold size at hs
    have hlt : min (s.index + 1) (s.data.length - 1) < s.data.length := by
      have := Nat.min_le_right (s.index + 1) (s.data.length - 1)
      omega
    have hstep := ih ⟨s.data, min (s.index + 1) (s.data.length - 1)⟩ (valid_of_lt hlt)
    simp only [redo_loop, redo_eq_get s h, get_of_lt hlt]
    rw [hstep]
    simp only [Outcome.ret.injEq, Rollback.mk.injEq, true_and]
    omega

/-- On a valid container `reset` returns the oldest entry and leaves it alone in the
history. -/
theorem reset_of_front {T : Type} (s : Rollback T) (a : T) (h : front s.data = some a) :
    reset s = .ret a ⟨[a], 0⟩ := by
  unfold reset
  rw [h]
  rfl

/-- With oldest entry `a` and newest entry `b`, `compress` returns `b` and leaves the
history `[a, b]` with the cursor on `b`. -/
theorem compress_of_ends {T : Type} (s : Rollback T) (a b : T)
    (ha : front s.data = some a) (hb : back s.data = some b) :
    compress s = .ret b ⟨[a, b], 1⟩ := by
  unfold compress
  rw [ha, hb]
  rfl

theorem front_of_valid {T : Type} {s : Rollback T} (h : Valid s) :
    ∃ a, front s.data = some a := by
  have h1 := h.1
  unfold size at h1
  cases hd : s.data with
  | nil => rw [hd] at h1; exact absurd h1 (Nat.not_succ_le_zero 0)
  | cons x xs => exact ⟨x, rfl⟩

theorem back_of_valid {T : Type} {s : Rollback T} (h : Valid s) :
    ∃ b, back s.data = some b := by
  have h1 := h.1
  unfold size at h1
  have hne : s.data ≠ [] := by
    intro hd
    rw [hd] at h1
    exact absurd h1 (Nat.not_succ_le_zero 0)
  exact ⟨s.data.getLast hne, List.getLast?_eq_getLast _ hne⟩

theorem valid_construct {T : Type} (seed : T) : Valid (Rollback.construct seed) := by
  unfold Valid size Rollback.construct emplace_back
  simp

/-- A mutating operator on a valid container either returns with a valid container or,
its new value not being computed, stops with the container unchanged. -/
theorem commit_with_cases {T : Type} (s : Rollback T) (f : T → Option T) (h : Valid s) :
    (∃ v s1, commit_with s f = .ret v s1 ∧ Valid s1) ∨
    (∃ cur, deque_at s.data s.index = some cur ∧ f cur = none ∧ commit_with s f = .abort s) := by
  obtain ⟨cur, hcur⟩ := at_of_valid h
  cases hv : f cur with
  | none => exact Or.inr ⟨cur, hcur, hv, commit_with_none s f cur hcur hv⟩
  | some v => exact Or.inl ⟨v, _, commit_with_some s f cur v h hcur hv, valid_append s v h⟩

theorem commit_with_total {T : Type} (s : Rollback T) (g : T → T) (h : Valid s) :
    ∃ v s1, commit_with s (fun tmp => some (g tmp)) = .ret v s1 ∧ Valid s1 := by
  obtain ⟨cur, hcur⟩ := at_of_valid h
  exact ⟨g cur, _, commit_with_some s _ cur (g cur) h hcur rfl, valid_append s (g cur) h⟩

theorem post_increment_of_at {T : Type} [Arith T] (s : Rollback T) (cur : T) (h : Valid s)
    (hcur : deque_at s.data s.index = some cur) :
    post_increment s
      = .ret cur ⟨s.data.take (s.index + 1) ++ [Arith.add cur Arith.one], s.index + 1⟩ := by
  unfold post_increment
  rw [hcur]
  simp only [set_of_valid s _ h]

theorem post_decrement_of_at {T : Type} [Arith T] (s : Rollback T) (cur : T) (h : Valid s)
    (hcur : deque_at s.data s.index = some cur) :
    post_decrement s
      = .ret () ⟨s.data.take (s.index + 1) ++ [Arith.sub cur Arith.one], s.index + 1⟩ := by
  unfold post_decrement
  rw [hcur]
  simp only [set_of_valid s _ h]

theorem undo_of_valid {T : Type} (s : Rollback T) (h : Valid s) :
    ∃ v, deque_at s.data (s.index - 1) = some v ∧ undo s = .ret v ⟨s.data, s.index - 1⟩ := by
  have hlt : s.index - 1 < s.data.length := by
    have := h.2.2
    unfold size at this
    omega
  exact ⟨_, at_of_lt hlt, by rw [undo_eq_get]; exact get_of_lt hlt⟩

theorem redo_of_valid {T : Type} (s : Rollback T) (h : Valid s) :
    ∃ v, deque_at s.data (min (s.index + 1) (s.data.length - 1)) = some v ∧
      redo s = .ret v ⟨s.data, min (s.index + 1) (s.data.length - 1)⟩ := by
  have hlt : min (s.index + 1) (s.data.length - 1) < s.data.length := by
    have := h.2.2
    unfold size at this
    have := Nat.min_le_right (s.index + 1) (s.data.length - 1)
    omega
  exact ⟨_, at_of_lt hlt, by rw [redo_eq_get s h]; exact get_of_lt hlt⟩

theorem shift_left_of_valid {T : Type} (s : Rollback T) (n : Nat) (h : Valid s) :
    ∃ v, deque_at s.data (s.index - n) = some v ∧
      shift_left s n = .ret v ⟨s.data, s.index - n⟩ := by
  have hlt : s.index - n < s.data.length := by
    have := h.2.2
    unfold size at this
    omega
  refine ⟨_, at_of_lt hlt, ?_⟩
  unfold shift_left
  rw [undo_loop_of_valid n s h]
  exact get_of_lt hlt

theorem shift_right_of_valid {T : Type} (s : Rollback T) (n : Nat) (h : Valid s) :
    ∃ v, deque_at s.data (min (s.index + n) (s.data.length - 1)) = some v ∧
      shift_right s n = .ret v ⟨s.data, min (s.index + n) (s.data.length - 1)⟩ := by
  have hlt : min (s.index + n) (s.data.length - 1) < s.data.length := by
    have := h.2.2
    unfold size at this
    have := Nat.min_le_right (s.index + n) (s.data.length - 1)
    omega
  refine ⟨_, at_of_lt hlt, ?_⟩
  unfold shift_right
  rw [redo_loop_of_valid n s h]
  exact get_of_lt hlt

/-- One call on a valid container: it returns with a valid container, unless it is a
division whose quotient `T` does not compute, which leaves the container as it was. -/
theorem step_valid {T : Type} [Arith T] (s : Rollback T) (c : Call T) (h : Valid s) :
    (∃ s1, step s c = .ret () s1 ∧ Valid s1) ∨
    (∃ t cur, (c = .div_assign t ∨ c = .mod_assign t) ∧
      deque_at s.data s.index = some cur ∧ Arith.div cur t = none ∧ step s c = .abort s) := by
  have total : ∀ g : T → T, ∃ s1,
      (commit_with s (fun tmp => some (g tmp))).void = .ret () s1 ∧ Valid s1 := by
    intro g
    obtain ⟨v, s1, he, hv⟩ := commit_with_total s g h
    exact ⟨s1, by rw [he]; rfl, hv⟩
  cases c with
  | set t => exact Or.inl ⟨_, set_of_valid s t h, valid_append s t h⟩
  | set_args t => exact Or.inl ⟨_, set_of_valid s t h, valid_append s t h⟩
  | assign t =>
    exact Or.inl ⟨_, by simp only [step, assign_of_valid s t h]; rfl, valid_append s t h⟩
  | undo =>
    obtain ⟨v, hv, he⟩ := undo_of_valid s h
    have hlt : s.index - 1 < s.data.length := by
      have := h.2.2
      unfold size at this
      omega
    exact Or.inl ⟨_, by simp only [step, he]; rfl, valid_of_lt hlt⟩
  | redo =>
    obtain ⟨v, hv, he⟩ := redo_of_valid s h
    have hlt : min (s.index + 1) (s.data.length - 1) < s.data.length := by
      have := h.2.2
      unfold size at this
      have := Nat.min_le_right (s.index + 1) (s.data.length - 1)
      omega
    exact Or.inl ⟨_, by simp only [step, he]; rfl, valid_of_lt hlt⟩
  | reset =>
    obtain ⟨a, ha⟩ := front_of_valid h
    exact Or.inl ⟨⟨[a], 0⟩, by simp only [step, reset_of_front s a ha]; rfl,
      valid_of_lt (Nat.zero_lt_succ 0)⟩
  | compress =>
    obtain ⟨a, ha⟩ := front_of_valid h
    obtain ⟨b, hb⟩ := back_of_valid h
    exact Or.inl ⟨⟨[a, b], 1⟩, by simp only [step, compress_of_ends s a b ha hb]; rfl,
      valid_of_lt (Nat.lt_succ_self 1)⟩
  | add_assign t => exact Or.inl (total _)
  | sub_assign t => exact Or.inl (total _)
  | mul_assign t => exact Or.inl (total _)
  | div_assign t =>
    rcases commit_with_cases s (fun tmp => Arith.div tmp t) h with ⟨v, s1, he, hv⟩ | ⟨cur, hc, hn, he⟩
    · exact Or.inl ⟨s1, by simp only [step, div_assign, he]; rfl, hv⟩
    · exact Or.inr ⟨t, cur, Or.inl rfl, hc, hn, by simp only [step, div_assign, he]; rfl⟩
  | mod_assign t =>
    rcases commit_with_cases s (fun tmp => Arith.div tmp t) h with ⟨v, s1, he, hv⟩ | ⟨cur, hc, hn, he⟩
    · exact Or.inl ⟨s1, by simp only [step, mod_assign, he]; rfl, hv⟩
    · exact Or.inr ⟨t, cur, Or.inr rfl, hc, hn, by simp only [step, mod_assign, he]; rfl⟩
  | pre_increment => exact Or.inl (total _)
  | post_increment =>
    obtain ⟨cur, hcur⟩ := at_of_valid h
    exact Or.inl ⟨⟨s.data.take (s.index + 1) ++ [Arith.add cur Arith.one], s.index + 1⟩,
      by simp only [step, post_increment_of_at s cur h hcur]; rfl, valid_append s _ h⟩
  | pre_decrement => exact Or.inl (total _)
  | post_decrement =>
    obtain ⟨cur, hcur⟩ := at_of_valid h
    exact Or.inl ⟨⟨s.data.take (s.index + 1) ++ [Arith.sub cur Arith.one], s.index + 1⟩,
      by simp only [step, post_decrement_of_at s cur h hcur], valid_append s _ h⟩
  | shift_left n =>
    obtain ⟨v, hv, he⟩ := shift_left_of_valid s n h
    have hlt : s.index - n < s.data.length := by
      have := h.2.2
      unfold size at this
      omega
    exact Or.inl ⟨_, by simp only [step, he]; rfl, valid_of_lt hlt⟩
  | shift_right n =>
    obtain ⟨v, hv, he⟩ := shift_right_of_valid s n h
    have hlt : min (s.index + n) (s.data.length - 1) < s.data.length := by
      have := h.2.2
      unfold size at this
      have := Nat.min_le_right (s.index + n) (s.data.length - 1)
      omega
    exact Or.inl ⟨_, by simp only [step, he]; rfl, valid_of_lt hlt⟩

theorem step_state_valid {T : Type} [Arith T] (s : Rollback T) (c : Call T) (h : Valid s) :
    Valid (step s c).state := by
  rcases step_valid s c h with ⟨s1, he, hv⟩ | ⟨_, _, _, _, _, he⟩
  · rw [he]; exact hv
  · rw [he]; exact h

theorem run_state_valid {T : Type} [Arith T] :
    ∀ (cs : List (Call T)) (s : Rollback T), Valid s → Valid (run s cs).state := by
  intro cs
  induction cs with
  | nil => intro s h; exact h
  | cons c cs ih =>
    intro s h
    have hv := step_state_valid s c h
    unfold run
    cases hs : step s c with
    | ret u s1 =>
      rw [hs] at hv
      exact ih s1 hv
    | abort s1 =>
      rw [hs] at hv
      exact hv

theorem length_take_succ {T : Type} {d : List T} {i : Nat} (h : i < d.length) :
    (d.take (i + 1)).length = i + 1 := by
  rw [List.length_take]
  omega

theorem at_append_last {T : Type} (d : List T) (v : T) :
    deque_at (d ++ [v]) d.length = some v := by
  simp [deque_at]

theorem at_append_left {T : Type} (d : List T) (v : T) {i : Nat} (h : i < d.length) :
    deque_at (d ++ [v]) i = deque_at d i := by
  unfold deque_at
  exact List.getElem?_append_left h

theorem at_take {T : Type} (d : List T) {i n : Nat} (h : i < n) :
    deque_at (d.take n) i = deque_at d i := by
  unfold deque_at
  rw [List.getElem?_take, if_pos h]

/-- After a commit on a valid container the value read at the cursor is the committed one. -/
theorem get_after_set {T : Type} (s : Rollback T) (v : T) (h : Valid s) :
    get ⟨s.data.take (s.index + 1) ++ [v], s.index + 1⟩
      = .ret v ⟨s.data.take (s.index + 1) ++ [v], s.index + 1⟩ := by
  apply get_of_at
  have hl := length_take_succ (d := s.data) (i := s.index) h.2.2
  have := at_append_last (s.data.take (s.index + 1)) v
  rw [hl] at this
  exact this

theorem can_redo_after_set {T : Type} (s : Rollback T) (v : T) (h : Valid s) :
    can_redo ⟨s.data.take (s.index + 1) ++ [v], s.index + 1⟩ = false := by
  have hl := length_take_succ (d := s.data) (i := s.index) h.2.2
  unfold can_redo
  simp only [List.length_append, List.length_singleton, hl]
  rw [size_minus_one_pos (by omega)]
  simp

theorem commits_of_valid {T : Type} (s : Rollback T) (v : T) (o : Outcome T T) (h : Valid s)
    (ho : o = .ret v ⟨s.data.take (s.index + 1) ++ [v], s.index + 1⟩) : Commits s v o := by
  have hl := length_take_succ (d := s.data) (i := s.index) h.2.2
  refine ⟨_, set_of_valid s v h, ho, rfl, rfl, ?_, get_after_set s v h⟩
  unfold size
  simp only [List.length_append, List.length_singleton, hl]
  omega

theorem run_append {T : Type} [Arith T] :
    ∀ (cs1 cs2 : List (Call T)) (s s1 : Rollback T), run s cs1 = .ret () s1 →
      run s (cs1 ++ cs2) = run s1 cs2 := by
  intro cs1
  induction cs1 with
  | nil =>
    intro cs2 s s1 h
    simp only [run, Outcome.ret.injEq, true_and] at h
    rw [h]
    rfl
  | cons c cs ih =>
    intro cs2 s s1 h
    simp only [List.cons_append, run] at h ⊢
    cases hs : step s c with
    | ret u s2 =>
      rw [hs] at h
      simp only at h ⊢
      exact ih cs2 s2 s1 h
    | abort s2 =>
      rw [hs] at h
      simp only at h
      exact absurd h (by simp)

/-- A run of `set` calls on a valid container returns, with a valid container whose cursor
is higher by the number of calls. -/
theorem run_sets {T : Type} [Arith T] :
    ∀ (vs : List T) (s : Rollback T), Valid s →
      ∃ s1, run s (vs.map Call.set) = .ret () s1 ∧ Valid s1 ∧
        s1.index = s.index + vs.length := by
  intro vs
  induction vs with
  | nil => intro s h; exact ⟨s, rfl, h, rfl⟩
  | cons v vs ih =>
    intro s h
    obtain ⟨s1, hr, hv, hi⟩ := ih _ (valid_append s v h)
    refine ⟨s1, ?_, hv, ?_⟩
    · simp only [List.map_cons, run, step, set_of_valid s v h]
      exact hr
    · rw [hi]
      simp only [List.length_cons]
      omega

/-- A run of `n` `undo()` calls on a valid container. -/
theorem run_undos {T : Type} [Arith T] :
    ∀ (n : Nat) (s : Rollback T), Valid s →
      run s (List.replicate n Call.undo) = .ret () ⟨s.data, s.index - n⟩ := by
  intro n
  induction n with
  | zero => intro s _; rfl
  | succ n ih =>
    intro s h
    have hlt : s.index - 1 < s.data.length := by
      have := h.2.2
      unfold size at this
      omega
    simp only [List.replicate_succ, run, step, undo_eq_get, get_of_lt hlt, Outcome.void]
    rw [ih _ (valid_of_lt hlt)]
    simp only [Outcome.ret.injEq, Rollback.mk.injEq, true_and]
    omega

/-- A run of `n` `redo()` calls on a valid container. -/
theorem run_redos {T : Type} [Arith T] :
    ∀ (n : Nat) (s : Rollback T), Valid s →
      run s (List.replicate n Call.redo)
        = .ret () ⟨s.data, min (s.index + n) (s.data.length - 1)⟩ := by
  intro n
  induction n with
  | zero =>
    intro s h
    have := h.2.2
    unfold size at this
    simp only [List.replicate_zero, run, Nat.add_zero]
    rw [Nat.min_eq_left (by omega)]
  | succ n ih =>
    intro s h
    have hs := h.2.2
    unfold size at hs
    have hlt : min (s.index + 1) (s.data.length - 1) < s.data.length := by
      have := Nat.min_le_right (s.index + 1) (s.data.length - 1)
      omega
    simp only [List.replicate_succ, run, step, redo_eq_get s h, get_of_lt hlt, Outcome.void]
    rw [ih _ (valid_of_lt hlt)]
    simp only [Outcome.ret.injEq, Rollback.mk.injEq, true_and]
    omega

/-- The container after `n` successive `undo()` calls on a valid container. -/
theorem undo_by_of_valid {T : Type} :
    ∀ (n : Nat) (s : Rollback T), Valid s → undo_by n s = ⟨s.data, s.index - n⟩ := by
  intro n
  induction n with
  | zero => intro s _; rfl
  | succ n ih =>
    intro s h
    have hlt : s.index - 1 < s.data.length := by
      have := h.2.2
      unfold size at this
      omega
    simp only [undo_by, undo_eq_get, get_state]
    rw [ih _ (valid_of_lt hlt)]
    simp only [Rollback.mk.injEq, true_and]
    omega

/-- The container after `n` successive `redo()` calls on a valid container. -/
theorem redo_by_of_valid {T : Type} :
    ∀ (n : Nat) (s : Rollback T), Valid s →
      redo_by n s = ⟨s.data, min (s.index + n) (s.data.length - 1)⟩ := by
  intro n
  induction n with
  | zero =>
    intro s h
    have := h.2.2
    unfold size at this
    simp only [redo_by, Nat.add_zero]
    rw [Nat.min_eq_left (by omega)]
  | succ n ih =>
    intro s h
    have hs := h.2.2
    unfold size at hs
    have hlt : min (s.index + 1) (s.data.length - 1) < s.data.length := by
      have := Nat.min_le_right (s.index + 1) (s.data.length - 1)
      omega
    simp only [redo_by, redo_eq_get s h, get_state]
    rw [ih _ (valid_of_lt hlt)]
    simp only [Rollback.mk.injEq, true_and]
    omega

theorem at_of_get {T : Type} {s : Rollback T} {v : T} (h : get s = .ret v s) :
    deque_at s.data s.index = some v := by
  unfold get at h
  cases hd : deque_at s.data s.index with
  | none => rw [hd] at h; exact absurd h (by simp)
  | some w =>
    rw [hd] at h
    simp only [Outcome.ret.injEq, and_true] at h
    rw [h]

theorem front_eq_at {T : Type} (d : List T) : front d = deque_at d 0 := by
  cases d <;> simp [front, deque_at]

theorem back_eq_at {T : Type} (d : List T) : back d = deque_at d (d.length - 1) := by
  unfold back deque_at
  exact List.getLast?_eq_getElem? d

/-- What `compress` does on a valid container, in terms of the oldest and newest entry. -/
theorem compress_of_valid {T : Type} (s : Rollback T) (h : Valid s) :
    ∃ a b, deque_at s.data 0 = some a ∧ deque_at s.data (size s - 1) = some b ∧
      compress s = .ret b ⟨[a, b], 1⟩ := by
  obtain ⟨a, ha⟩ := front_of_valid h
  obtain ⟨b, hb⟩ := back_of_valid h
  refine ⟨a, b, ?_, ?_, compress_of_ends s a b ha hb⟩
  · rw [← front_eq_at]; exact ha
  · unfold size; rw [← back_eq_at]; exact hb

/-- What `reset` does on a valid container, in terms of the oldest entry. -/
theorem reset_of_valid {T : Type} (s : Rollback T) (h : Valid s) :
    ∃ a, deque_at s.data 0 = some a ∧ reset s = .ret a ⟨[a], 0⟩ := by
  obtain ⟨a, ha⟩ := front_of_valid h
  refine ⟨a, ?_, reset_of_front s a ha⟩
  rw [← front_eq_at]; exact ha

/-- A mutating operator on a valid container that does not return has left the container
as it was. -/
theorem commit_with_abort {T : Type} (s s1 : Rollback T) (f : T → Option T) (h : Valid s)
    (ha : commit_with s f = .abort s1) : s1 = s := by
  rcases commit_with_cases s f h with ⟨v, s2, he, _⟩ | ⟨_, _, _, he⟩
  · rw [he] at ha
    exact absurd ha (by simp)
  · rw [he] at ha
    injection ha with h1
    exact h1.symm

theorem int_div_zero (a : Int) : (Arith.div a 0 : Option Int) = none := by
  show (if (0 : Int) = 0 ∨ (a = INT_MIN ∧ (0 : Int) = -1) then none
    else some (Int.tdiv a 0)) = none
  rw [if_pos (Or.inl rfl)]

/-- On `int`, `/` and `%` have no value exactly on a zero divisor and on `INT_MIN / -1`. -/
theorem int_div_none_iff (a b : Int) :
    ((Arith.div a b : Option Int) = none ↔ (b = 0 ∨ (a = INT_MIN ∧ b = -1))) ∧
    ((Arith.mod a b : Option Int) = none ↔ (b = 0 ∨ (a = INT_MIN ∧ b = -1))) := by
  constructor
  · show (if b = 0 ∨ (a = INT_MIN ∧ b = -1) then none else some (Int.tdiv a b)) = none ↔ _
    by_cases hb : b = 0 ∨ (a = INT_MIN ∧ b = -1)
    · simp [hb]
    · simp [hb]
  · show (if b = 0 ∨ (a = INT_MIN ∧ b = -1) then none else some (Int.tmod a b)) = none ↔ _
    by_cases hb : b = 0 ∨ (a = INT_MIN ∧ b = -1)
    · simp [hb]
    · simp [hb]

theorem int_div_some (a b : Int) (hb : b ≠ 0) (hq : ¬ (a = INT_MIN ∧ b = -1)) :
    (Arith.div a b : Option Int) = some (Int.tdiv a b) := by
  show (if b = 0 ∨ (a = INT_MIN ∧ b = -1) then none else some (Int.tdiv a b)) = _
  rw [if_neg (by rintro (h | h); exact hb h; exact hq h)]

/-- A result an `int` can hold is not changed by the reduction modulo `2^32`. -/
theorem wrap_int_of_in_int (x : Int) (h : in_int x) : wrap_int x = x := by
  unfold in_int INT_MIN INT_MAX at h
  unfold wrap_int
  omega

/-- The reduction modulo `2^32` always gives an `int`. -/
theorem in_int_wrap_int (x : Int) : in_int (wrap_int x) := by
  unfold in_int INT_MIN INT_MAX wrap_int
  omega

theorem read_with_some {T : Type} (s : Rollback T) (f : T → Option T) (cur v : T)
    (hcur : deque_at s.data s.index = some cur) (hv : f cur = some v) :
    read_with s f = .ret v s := by
  unfold read_with
  rw [hcur]
  simp only [hv]

theorem read_with_state {T : Type} (s : Rollback T) (f : T → Option T) :
    (read_with s f).state = s := by
  unfold read_with
  cases deque_at s.data s.index with
  | none => rfl
  | some tmp =>
    simp only
    cases f tmp <;> rfl

theorem free_with_some {T : Type} (s : Rollback T) (f : T → Option T) (cur v : T)
    (hcur : deque_at s.data s.index = some cur) (hv : f cur = some v) :
    free_with s f = .ret v s := by
  unfold free_with
  rw [get_of_at hcur]
  simp only [hv]

theorem free_with_state {T : Type} (s : Rollback T) (f : T → Option T) :
    (free_with s f).state = s := by
  unfold free_with get
  cases deque_at s.data s.index with
  | none => rfl
  | some tmp =>
    simp only
    cases f tmp <;> rfl

theorem operator_assign_still_calling {T : Type} :
    ∀ (depth : Nat) (self other : Rollback T),
      operator_assign depth self other = .still_calling := by
  intro depth
  induction depth with
  | zero => intro _ _; rfl
  | succ depth ih =>
    intro self other
    simp only [operator_assign, ih]

theorem undo_state_data {T : Type} (s : Rollback T) : (undo s).state.data = s.data := by
  rw [undo_eq_get, get_state]

theorem redo_state_data {T : Type} (s : Rollback T) : (redo s).state.data = s.data := by
  unfold redo
  rw [get_state]
  split <;> rfl

theorem undo_loop_state_data {T : Type} :
    ∀ (n : Nat) (s : Rollback T), (undo_loop n s).state.data = s.data := by
  intro n
  induction n with
  | zero => intro s; rfl
  | succ n ih =>
    intro s
    have hu := undo_state_data s
    unfold undo_loop
    cases h : undo s with
    | ret v s1 =>
      rw [h] at hu
      simp only
      rw [ih s1]
      exact hu
    | abort s1 =>
      rw [h] at hu
      exact hu

theorem redo_loop_state_data {T : Type} :
    ∀ (n : Nat) (s : Rollback T), (redo_loop n s).state.data = s.data := by
  intro n
  induction n with
  | zero => intro s; rfl
  | succ n ih =>
    intro s
    have hu := redo_state_data s
    unfold redo_loop
    cases h : redo s with
    | ret v s1 =>
      rw [h] at hu
      simp only
      rw [ih s1]
      exact hu
    | abort s1 =>
      rw [h] at hu
      exact hu

theorem shift_left_state_data {T : Type} (s : Rollback T) (n : Nat) :
    (shift_left s n).state.data = s.data := by
  have hl := undo_loop_state_data n s
  unfold shift_left
  cases h : undo_loop n s with
  | ret v s1 =>
    rw [h] at hl
    simp only
    rw [get_state]
    exact hl
  | abort s1 =>
    rw [h] at hl
    exact hl

theorem shift_right_state_data {T : Type} (s : Rollback T) (n : Nat) :
    (shift_right s n).state.data = s.data := by
  have hl := redo_loop_state_data n s
  unfold shift_right
  cases h : redo_loop n s with
  | ret v s1 =>
    rw [h] at hl
    simp only
    rw [get_state]
    exact hl
  | abort s1 =>
    rw [h] at hl
    exact hl

/-- Started with the cursor outside the deque, and given enough iterations, the truncation
loop pops every entry and then pops from the empty deque. -/
theorem set_loop_pop_empty {T : Type} (index : Nat) :
    ∀ (fuel : Nat) (data : List T) (pops : Nat), data.length ≤ index → data.length ≤ fuel →
      set_loop index fuel data pops = .pop_empty (pops + data.length) := by
  intro fuel
  induction fuel with
  | zero =>
    intro data pops _ hf
    have hnil : data = [] := List.eq_nil_of_length_eq_zero (by omega)
    subst hnil
    simp [set_loop, pop_back]
  | succ fuel ih =>
    intro data pops hle hf
    cases data with
    | nil => simp [set_loop, pop_back]
    | cons x xs =>
      have hne : (x :: xs).length ≠ index + 1 := by omega
      have hdl : (x :: xs).dropLast.length = xs.length := by
        rw [List.length_dropLast]
        rfl
      simp only [List.length_cons] at hle hf
      have hih := ih (x :: xs).dropLast (pops + 1) (by omega) (by omega)
      simp only [set_loop, ne_eq, hne, not_false_eq_true, if_true, pop_back]
      rw [hih, hdl]
      simp only [List.length_cons]
      congr 1
      omega

/-- Started with the cursor outside the deque, the truncation loop never leaves through
its guard, whatever the number of iterations. -/
theorem set_loop_never_done {T : Type} (index : Nat) :
    ∀ (fuel : Nat) (data : List T) (pops : Nat), data.length ≤ index →
      ∀ (d : List T) (p : Nat), set_loop index fuel data pops ≠ .done d p := by
  intro fuel
  induction fuel with
  | zero =>
    intro data pops hle d p
    have hne : data.length ≠ index + 1 := by omega
    cases data with
    | nil => simp [set_loop, pop_back]
    | cons x xs =>
      simp only [set_loop, ne_eq, hne, not_false_eq_true, if_true, pop_back]
      intro h
      cases h
  | succ fuel ih =>
    intro data pops hle d p
    cases data with
    | nil => simp [set_loop, pop_back]
    | cons x xs =>
      have hne : (x :: xs).length ≠ index + 1 := by omega
      have hdl : (x :: xs).dropLast.length = xs.length := by
        rw [List.length_dropLast]
        rfl
      simp only [List.length_cons] at hle
      simp only [set_loop, ne_eq, hne, not_false_eq_true, if_true, pop_back]
      exact ih _ _ (by omega) d p

/-- With fewer iterations than entries after the cursor the truncation loop is still
running when the iterations are used up. -/
theorem set_loop_short {T : Type} (index : Nat) :
    ∀ (fuel : Nat) (data : List T) (pops : Nat), fuel + (index + 1) < data.length →
      set_loop index fuel data pops = .out_of_fuel := by
  intro fuel
  induction fuel with
  | zero =>
    intro data pops hlt
    have hne : data.length ≠ index + 1 := by omega
    cases data with
    | nil => simp only [List.length_nil] at hlt; omega
    | cons x xs => simp only [set_loop, ne_eq, hne, not_false_eq_true, if_true, pop_back]
  | succ fuel ih =>
    intro data pops hlt
    have hne : data.length ≠ index + 1 := by omega
    cases data with
    | nil => simp only [List.length_nil] at hlt; omega
    | cons x xs =>
      have hdl : (x :: xs).dropLast.length = xs.length := by
        rw [List.length_dropLast]
        rfl
      simp only [List.length_cons] at hlt
      simp only [set_loop, ne_eq, hne, not_false_eq_true, if_true, pop_back]
      exact ih _ _ (by omega)

theorem valid_of_reachable {T : Type} [Arith T] {s : Rollback T} (h : Reachable s) :
    Valid s := by
  obtain ⟨seed, cs, hs⟩ := h
  rw [← hs]
  exact run_state_valid cs _ (valid_construct seed)

/-! ## The claims -/

/-- C1: the constructor yields entries `[seed]` with cursor `0`; every public operation
applied to a container with `size() ≥ 1` and `0 ≤ cursor < size()` returns with a container
that satisfies the same (a division whose quotient `T` does not compute being the one call
that does not return, and it leaves the container untouched); hence the invariant holds
after every finite sequence of calls from construction. -/
theorem C1_invariant_preserved :
    (∀ (T : Type) (seed : T),
      Rollback.construct seed = ⟨[seed], 0⟩ ∧ Valid (Rollback.construct seed)) ∧
    (∀ (T : Type) [Arith T] (s : Rollback T) (c : Call T), Valid s →
      Valid (step s c).state ∧
      ((∃ s1, step s c = .ret () s1 ∧ Valid s1) ∨
        (∃ t cur, (c = .div_assign t ∨ c = .mod_assign t) ∧
          deque_at s.data s.index = some cur ∧ Arith.div cur t = none ∧
          step s c = .abort s))) ∧
    (∀ (T : Type) [Arith T] (seed : T) (cs : List (Call T)),
      Valid (run (Rollback.construct seed) cs).state) :=
  ⟨fun _ seed => ⟨rfl, valid_construct seed⟩,
   fun _ _ s c h => ⟨step_state_valid s c h, step_valid s c h⟩,
   fun _ _ seed cs => run_state_valid cs _ (valid_construct seed)⟩

/-- C1 at a concrete container: `[0, 5, 10]` with the cursor on `5`, compressed. -/
theorem C1_invariant_preserved_witness :
    Valid (⟨[0, 5, 10], 1⟩ : Rollback Int) ∧
    Valid (step (⟨[0, 5, 10], 1⟩ : Rollback Int) Call.compress).state ∧
    step (⟨[0, 5, 10], 1⟩ : Rollback Int) Call.compress = .ret () ⟨[0, 10], 1⟩ :=
  ⟨by decide,
   (C1_invariant_preserved.2.1 Int ⟨[0, 5, 10], 1⟩ Call.compress (by decide)).1,
   by decide⟩

/-- C2: on a valid container `set(v)` returns and leaves the first `cursor + 1` old entries
followed by `v` (every entry up to the old cursor kept, every later one discarded), the
cursor on the new last index, `size() == old cursor + 2`, `get() == v` and
`can_redo() == false`; from seed `0`, `set(5)`, `set(10)`, `undo()`, `set(7)` give the
history `[0, 5, 7]` with cursor `2` and `can_redo()` false. -/
theorem C2_set_truncates_then_appends :
    (∀ (T : Type) (s : Rollback T) (v : T), Valid s →
      ∃ s1, set s v = .ret () s1 ∧
        s1.data = s.data.take (s.index + 1) ++ [v] ∧
        (∀ i, i ≤ s.index → deque_at s1.data i = deque_at s.data i) ∧
        s1.index = size s1 - 1 ∧
        size s1 = s.index + 2 ∧
        get s1 = .ret v s1 ∧
        can_redo s1 = false) ∧
    (run (Rollback.construct (0 : Int)) [.set 5, .set 10, .undo, .set 7]
        = .ret () ⟨[0, 5, 7], 2⟩ ∧
      can_redo (⟨[0, 5, 7], 2⟩ : Rollback Int) = false) := by
  refine ⟨?_, by decide, by decide⟩
  intro T s v h
  have hl := length_take_succ (d := s.data) (i := s.index) h.2.2
  have hsz : size (⟨s.data.take (s.index + 1) ++ [v], s.index + 1⟩ : Rollback T)
      = s.index + 2 := by
    unfold size
    simp only [List.length_append, List.length_singleton, hl]
  refine ⟨_, set_of_valid s v h, rfl, ?_, ?_, hsz, get_after_set s v h,
    can_redo_after_set s v h⟩
  · intro i hi
    have hi1 : i < (s.data.take (s.index + 1)).length := by omega
    simp only
    rw [at_append_left _ _ hi1, at_take _ (by omega)]
  · rw [hsz]
    simp only
    omega

/-- C2 at the container reached by seed `0`, `set(5)`, `set(10)`, `undo()`, on `set(7)`. -/
theorem C2_set_truncates_then_appends_witness :
    Valid (⟨[0, 5, 10], 1⟩ : Rollback Int) ∧
    ∃ s1, set (⟨[0, 5, 10], 1⟩ : Rollback Int) 7 = .ret () s1 ∧
      s1.data = ([0, 5, 10] : List Int).take (1 + 1) ++ [7] ∧
      (∀ i, i ≤ 1 → deque_at s1.data i = deque_at ([0, 5, 10] : List Int) i) ∧
      s1.index = size s1 - 1 ∧
      size s1 = 1 + 2 ∧
      get s1 = .ret 7 s1 ∧
      can_redo s1 = false :=
  ⟨by decide, C2_set_truncates_then_appends.1 Int ⟨[0, 5, 10], 1⟩ 7 (by decide)⟩

/-- C3: on a valid container with current value `cur`, `set(v)` followed by `undo()`
returns `cur` and leaves `can_redo() == true`, and a following `redo()` returns `v` and
brings back the container as `set(v)` left it; from seed `0`, `set(5)`, `set(10)`, `undo()`
give `get() == 5` and `can_redo() == true`. -/
theorem C3_set_undo_redo :
    (∀ (T : Type) (s : Rollback T) (cur v : T), Valid s → get s = .ret cur s →
      ∃ s1 s2, set s v = .ret () s1 ∧ undo s1 = .ret cur s2 ∧ can_redo s2 = true ∧
        redo s2 = .ret v s1) ∧
    (∃ s2, run (Rollback.construct (0 : Int)) [.set 5, .set 10] = .ret () ⟨[0, 5, 10], 2⟩ ∧
      undo (⟨[0, 5, 10], 2⟩ : Rollback Int) = .ret 5 s2 ∧
      get s2 = .ret 5 s2 ∧ can_redo s2 = true) := by
  refine ⟨?_, ⟨⟨[0, 5, 10], 1⟩, by decide, by decide, by decide, by decide⟩⟩
  intro T s cur v h hget
  have hlt : s.index < s.data.length := h.2.2
  have hl := length_take_succ (d := s.data) (i := s.index) hlt
  have hcur : deque_at s.data s.index = some cur := by
    obtain ⟨w, hw⟩ := at_of_valid h
    rw [get_of_at hw] at hget
    injection hget with h1 _
    rw [hw, h1]
  have hlen : (s.data.take (s.index + 1) ++ [v]).length = s.index + 2 := by
    simp only [List.length_append, List.length_singleton, hl]
  have hat : deque_at (s.data.take (s.index + 1) ++ [v]) s.index = some cur := by
    rw [at_append_left _ _ (by omega), at_take _ (by omega)]
    exact hcur
  refine ⟨⟨s.data.take (s.index + 1) ++ [v], s.index + 1⟩,
    ⟨s.data.take (s.index + 1) ++ [v], s.index⟩, set_of_valid s v h, ?_, ?_, ?_⟩
  · rw [undo_eq_get]
    exact get_of_at hat
  · unfold can_redo
    simp only [hlen]
    rw [size_minus_one_pos (by omega)]
    simp
  · have hv2 : Valid (⟨s.data.take (s.index + 1) ++ [v], s.index⟩ : Rollback T) :=
      valid_of_lt (by omega)
    rw [redo_eq_get _ hv2]
    simp only [hlen]
    rw [Nat.min_eq_left (by omega)]
    exact get_after_set s v h

/-- C3 at the container `[0, 5]` with the cursor on `5`, for `set(10)`. -/
theorem C3_set_undo_redo_witness :
    Valid (⟨[0, 5], 1⟩ : Rollback Int) ∧
    get (⟨[0, 5], 1⟩ : Rollback Int) = .ret 5 ⟨[0, 5], 1⟩ ∧
    ∃ s1 s2, set (⟨[0, 5], 1⟩ : Rollback Int) 10 = .ret () s1 ∧ undo s1 = .ret 5 s2 ∧
      can_redo s2 = true ∧ redo s2 = .ret 10 s1 :=
  ⟨by decide, by decide,
   C3_set_undo_redo.1 Int ⟨[0, 5], 1⟩ 5 10 (by decide) (by decide)⟩

/-- C4: from a valid container, after committing the values `vs` with one `set` call each,
`k = vs.length` calls of `undo()` followed by `k` calls of `redo()` all return and leave the
container exactly as it was after the last `set` (same entries, same cursor, same
`get()`). -/
theorem C4_undo_redo_inverse :
    ∀ (T : Type) [Arith T] (s : Rollback T) (vs : List T), Valid s →
      ∃ s1 s2, run s (vs.map Call.set) = .ret () s1 ∧
        run s1 (List.replicate vs.length Call.undo) = .ret () s2 ∧
        s2.data = s1.data ∧ s2.index = s1.index - vs.length ∧
        run s2 (List.replicate vs.length Call.redo) = .ret () s1 ∧
        run s1 (List.replicate vs.length Call.undo ++ List.replicate vs.length Call.redo)
          = .ret () s1 := by
  intro T _ s vs h
  obtain ⟨s1, hr, hv, hi⟩ := run_sets vs s h
  have hlt1 : s1.index < s1.data.length := hv.2.2
  have hv2 : Valid (⟨s1.data, s1.index - vs.length⟩ : Rollback T) := valid_of_lt (by omega)
  have hredo : run (⟨s1.data, s1.index - vs.length⟩ : Rollback T)
      (List.replicate vs.length Call.redo) = .ret () s1 := by
    rw [run_redos _ _ hv2]
    simp only
    have hm : min (s1.index - vs.length + vs.length) (s1.data.length - 1) = s1.index := by
      rw [Nat.min_eq_left (by omega)]
      omega
    rw [hm]
  refine ⟨s1, ⟨s1.data, s1.index - vs.length⟩, hr, run_undos _ s1 hv, rfl, rfl, hredo, ?_⟩
  rw [run_append _ _ s1 _ (run_undos _ s1 hv)]
  exact hredo

/-- C4 at the container `[0, 5, 10]` with the cursor on `5`, committing `7` and `8`. -/
theorem C4_undo_redo_inverse_witness :
    Valid (⟨[0, 5, 10], 1⟩ : Rollback Int) ∧
    run (⟨[0, 5, 10], 1⟩ : Rollback Int) [.set 7, .set 8, .undo, .undo, .redo, .redo]
      = .ret () ⟨[0, 5, 7, 8], 3⟩ ∧
    ∃ s1 s2, run (⟨[0, 5, 10], 1⟩ : Rollback Int) (([7, 8] : List Int).map Call.set)
        = .ret () s1 ∧
      run s1 (List.replicate 2 Call.undo) = .ret () s2 ∧
      s2.data = s1.data ∧ s2.index = s1.index - 2 ∧
      run s2 (List.replicate 2 Call.redo) = .ret () s1 ∧
      run s1 (List.replicate 2 Call.undo ++ List.replicate 2 Call.redo) = .ret () s1 :=
  ⟨by decide, by decide, C4_undo_redo_inverse Int ⟨[0, 5, 10], 1⟩ [7, 8] (by decide)⟩

/-- C5: on a valid container with `cursor == 0`, `undo()` leaves entries and cursor
unchanged and returns the unchanged current value; on a valid container with
`cursor == size() - 1`, `redo()` does the same; `undo()` on the untouched container of seed
`0` gives `get() == 0` and `can_undo() == false`. -/
theorem C5_boundary_no_op :
    (∀ (T : Type) (s : Rollback T), Valid s → s.index = 0 →
      ∃ v, get s = .ret v s ∧ undo s = .ret v s) ∧
    (∀ (T : Type) (s : Rollback T), Valid s → s.index = size s - 1 →
      ∃ v, get s = .ret v s ∧ redo s = .ret v s) ∧
    (undo (Rollback.construct (0 : Int)) = .ret 0 (Rollback.construct 0) ∧
      get (Rollback.construct (0 : Int)) = .ret 0 (Rollback.construct 0) ∧
      can_undo (Rollback.construct (0 : Int)) = false) := by
  refine ⟨?_, ?_, by decide, by decide, by decide⟩
  · intro T s h h0
    obtain ⟨v, hv⟩ := at_of_valid h
    refine ⟨v, get_of_at hv, ?_⟩
    rw [undo_eq_get]
    have hs : (⟨s.data, s.index - 1⟩ : Rollback T) = s := by
      cases s with
      | mk data index =>
        simp only at h0
        subst h0
        rfl
    rw [hs]
    exact get_of_at hv
  · intro T s h hlast
    obtain ⟨v, hv⟩ := at_of_valid h
    refine ⟨v, get_of_at hv, ?_⟩
    rw [redo_eq_get s h]
    unfold size at hlast
    have hm : min (s.index + 1) (s.data.length - 1) = s.index := by
      rw [Nat.min_eq_right (by omega)]
      omega
    rw [hm]
    exact get_of_at hv

/-- C5 at the container `[0, 5, 10]`: `undo()` with the cursor on `0`, `redo()` with the
cursor on `10`. -/
theorem C5_boundary_no_op_witness :
    (Valid (⟨[0, 5, 10], 0⟩ : Rollback Int) ∧
      ∃ v, get (⟨[0, 5, 10], 0⟩ : Rollback Int) = .ret v ⟨[0, 5, 10], 0⟩ ∧
        undo (⟨[0, 5, 10], 0⟩ : Rollback Int) = .ret v ⟨[0, 5, 10], 0⟩) ∧
    (Valid (⟨[0, 5, 10], 2⟩ : Rollback Int) ∧
      ∃ v, get (⟨[0, 5, 10], 2⟩ : Rollback Int) = .ret v ⟨[0, 5, 10], 2⟩ ∧
        redo (⟨[0, 5, 10], 2⟩ : Rollback Int) = .ret v ⟨[0, 5, 10], 2⟩) :=
  ⟨⟨by decide, C5_boundary_no_op.1 Int ⟨[0, 5, 10], 0⟩ (by decide) rfl⟩,
   ⟨by decide, C5_boundary_no_op.2.1 Int ⟨[0, 5, 10], 2⟩ (by decide) (by decide)⟩⟩

/-- C6: on a valid container the bulk-undo operator `<< n` returns, leaves the container
that `n` successive `undo()` calls leave, namely the entries unchanged and the cursor at
`old cursor - min(n, old cursor)`, and returns the entry there; the bulk-redo operator
`>> n` returns, leaves the container that `n` successive `redo()` calls leave, namely the
cursor at `min(old cursor + n, size() - 1)`, and returns the entry there. -/
theorem C6_bulk_navigation :
    (∀ (T : Type) (s : Rollback T) (n : Nat), Valid s →
      ∃ v, shift_left s n = .ret v (undo_by n s) ∧
        undo_by n s = ⟨s.data, s.index - min n s.index⟩ ∧
        deque_at s.data (s.index - min n s.index) = some v) ∧
    (∀ (T : Type) (s : Rollback T) (n : Nat), Valid s →
      ∃ v, shift_right s n = .ret v (redo_by n s) ∧
        redo_by n s = ⟨s.data, min (s.index + n) (size s - 1)⟩ ∧
        deque_at s.data (min (s.index + n) (size s - 1)) = some v) := by
  constructor
  · intro T s n h
    have hm : s.index - min n s.index = s.index - n := by
      rcases Nat.le_total n s.index with hle | hle
      · rw [Nat.min_eq_left hle]
      · rw [Nat.min_eq_right hle]
        omega
    obtain ⟨v, hv, he⟩ := shift_left_of_valid s n h
    rw [hm, undo_by_of_valid n s h]
    exact ⟨v, he, rfl, hv⟩
  · intro T s n h
    obtain ⟨v, hv, he⟩ := shift_right_of_valid s n h
    rw [redo_by_of_valid n s h]
    exact ⟨v, he, rfl, hv⟩

/-- C6 at the container `[0, 5, 10, 7]`: `<< 5` with the cursor on `10`, `>> 5` with the
cursor on `5`. -/
theorem C6_bulk_navigation_witness :
    (Valid (⟨[0, 5, 10, 7], 2⟩ : Rollback Int) ∧
      shift_left (⟨[0, 5, 10, 7], 2⟩ : Rollback Int) 5 = .ret 0 ⟨[0, 5, 10, 7], 0⟩ ∧
      ∃ v, shift_left (⟨[0, 5, 10, 7], 2⟩ : Rollback Int) 5
          = .ret v (undo_by 5 ⟨[0, 5, 10, 7], 2⟩) ∧
        undo_by 5 (⟨[0, 5, 10, 7], 2⟩ : Rollback Int) = ⟨[0, 5, 10, 7], 2 - min 5 2⟩ ∧
        deque_at ([0, 5, 10, 7] : List Int) (2 - min 5 2) = some v) ∧
    (Valid (⟨[0, 5, 10, 7], 1⟩ : Rollback Int) ∧
      shift_right (⟨[0, 5, 10, 7], 1⟩ : Rollback Int) 5 = .ret 7 ⟨[0, 5, 10, 7], 3⟩ ∧
      ∃ v, shift_right (⟨[0, 5, 10, 7], 1⟩ : Rollback Int) 5
          = .ret v (redo_by 5 ⟨[0, 5, 10, 7], 1⟩) ∧
        redo_by 5 (⟨[0, 5, 10, 7], 1⟩ : Rollback Int)
          = ⟨[0, 5, 10, 7], min (1 + 5) (size (⟨[0, 5, 10, 7], 1⟩ : Rollback Int) - 1)⟩ ∧
        deque_at ([0, 5, 10, 7] : List Int)
          (min (1 + 5) (size (⟨[0, 5, 10, 7], 1⟩ : Rollback Int) - 1)) = some v) :=
  ⟨⟨by decide, by decide, C6_bulk_navigation.1 Int ⟨[0, 5, 10, 7], 2⟩ 5 (by decide)⟩,
   ⟨by decide, by decide, C6_bulk_navigation.2 Int ⟨[0, 5, 10, 7], 1⟩ 5 (by decide)⟩⟩

/-- C7: on a valid container `compress()` returns the newest entry and leaves exactly the
two entries `[old entries[0], old entries[last]]` with `cursor == 1`, the returned value
being the entry at cursor `1`, and one `undo()` afterwards returns the old oldest entry; a
container holding the single entry `v` becomes `[v, v]` with `cursor == 1`; seed `1`,
`set(2)`, `set(3)`, `set(4)`, `compress()` give `size() == 2`, entries `[1, 4]`,
cursor `1`. -/
theorem C7_compress_shape :
    (∀ (T : Type) (s : Rollback T), Valid s →
      ∃ a b s1, deque_at s.data 0 = some a ∧ deque_at s.data (size s - 1) = some b ∧
        compress s = .ret b s1 ∧ s1.data = [a, b] ∧ s1.index = 1 ∧ size s1 = 2 ∧
        deque_at s1.data s1.index = some b ∧
        undo s1 = .ret a ⟨[a, b], 0⟩) ∧
    (∀ (T : Type) (v : T), compress (⟨[v], 0⟩ : Rollback T) = .ret v ⟨[v, v], 1⟩) ∧
    (run (Rollback.construct (1 : Int)) [.set 2, .set 3, .set 4, .compress]
        = .ret () ⟨[1, 4], 1⟩ ∧
      size (⟨[1, 4], 1⟩ : Rollback Int) = 2) := by
  refine ⟨?_, fun _ _ => rfl, by decide, by decide⟩
  intro T s h
  obtain ⟨a, b, ha, hb, hc⟩ := compress_of_valid s h
  exact ⟨a, b, ⟨[a, b], 1⟩, ha, hb, hc, rfl, rfl, rfl, rfl, rfl⟩

/-- C7 at the container `[1, 2, 3, 4]` with the cursor on `4`. -/
theorem C7_compress_shape_witness :
    Valid (⟨[1, 2, 3, 4], 3⟩ : Rollback Int) ∧
    compress (⟨[1, 2, 3, 4], 3⟩ : Rollback Int) = .ret 4 ⟨[1, 4], 1⟩ ∧
    ∃ a b s1, deque_at ([1, 2, 3, 4] : List Int) 0 = some a ∧
      deque_at ([1, 2, 3, 4] : List Int) (size (⟨[1, 2, 3, 4], 3⟩ : Rollback Int) - 1)
        = some b ∧
      compress (⟨[1, 2, 3, 4], 3⟩ : Rollback Int) = .ret b s1 ∧ s1.data = [a, b] ∧
      s1.index = 1 ∧ size s1 = 2 ∧ deque_at s1.data s1.index = some b ∧
      undo s1 = .ret a ⟨[a, b], 0⟩ :=
  ⟨by decide, by decide, C7_compress_shape.1 Int ⟨[1, 2, 3, 4], 3⟩ (by decide)⟩

/-- C8 as stated fails: the container reached from seed `0` by `set(5)`, `set(10)`,
`undo()` is valid with `get() == 5`, and after `compress()` it is `[0, 10]` with cursor `1`
and `get() == 10`. -/
theorem C8_compress_current_counterexample :
    run (Rollback.construct (0 : Int)) [.set 5, .set 10, .undo] = .ret () ⟨[0, 5, 10], 1⟩ ∧
    Valid (⟨[0, 5, 10], 1⟩ : Rollback Int) ∧
    get (⟨[0, 5, 10], 1⟩ : Rollback Int) = .ret 5 ⟨[0, 5, 10], 1⟩ ∧
    compress (⟨[0, 5, 10], 1⟩ : Rollback Int) = .ret 10 ⟨[0, 10], 1⟩ ∧
    get (⟨[0, 10], 1⟩ : Rollback Int) = .ret 10 ⟨[0, 10], 1⟩ ∧
    ¬ (∀ (s : Rollback Int) (cur v : Int) (s1 : Rollback Int), Valid s →
        get s = .ret cur s → compress s = .ret v s1 → get s1 = .ret cur s1) := by
  refine ⟨by decide, by decide, by decide, by decide, by decide, ?_⟩
  intro hall
  have h := hall ⟨[0, 5, 10], 1⟩ 5 10 ⟨[0, 10], 1⟩ (by decide) (by decide) (by decide)
  exact absurd h (by decide)

/-- C8, amended: on every valid container (also one reached by `undo`), `get()` after
`compress()` is the newest entry `entries[last]` the container held before `compress()`;
it is the value that was current before `compress()` when the cursor was on the last index
(`can_redo()` false). -/
theorem C8_compress_keeps_newest :
    ∀ (T : Type) (s : Rollback T), Valid s →
      ∃ b s1, deque_at s.data (size s - 1) = some b ∧ compress s = .ret b s1 ∧
        get s1 = .ret b s1 ∧ (can_redo s = false → get s = .ret b s) := by
  intro T s h
  obtain ⟨a, b, _, hb, hc⟩ := compress_of_valid s h
  refine ⟨b, ⟨[a, b], 1⟩, hb, hc, rfl, ?_⟩
  intro hr
  apply get_of_at
  have h1 := h.1
  have hlt := h.2.2
  unfold can_redo at hr
  unfold size at h1 hlt hb
  rw [size_minus_one_pos (by omega)] at hr
  have hidx : s.index = s.data.length - 1 := by
    have := of_decide_eq_false hr
    omega
  rw [hidx]
  exact hb

/-- C8 amended, at the container `[0, 5, 10]` with the cursor on `5`. -/
theorem C8_compress_keeps_newest_witness :
    Valid (⟨[0, 5, 10], 1⟩ : Rollback Int) ∧
    ∃ b s1, deque_at ([0, 5, 10] : List Int) (size (⟨[0, 5, 10], 1⟩ : Rollback Int) - 1)
        = some b ∧
      compress (⟨[0, 5, 10], 1⟩ : Rollback Int) = .ret b s1 ∧ get s1 = .ret b s1 ∧
      (can_redo (⟨[0, 5, 10], 1⟩ : Rollback Int) = false →
        get (⟨[0, 5, 10], 1⟩ : Rollback Int) = .ret b ⟨[0, 5, 10], 1⟩) :=
  ⟨by decide, C8_compress_keeps_newest Int ⟨[0, 5, 10], 1⟩ (by decide)⟩

/-- C9: on a valid container `reset()` returns the old `entries[0]` and leaves exactly that
one entry with `cursor == 0`, so `size() == 1` and `can_undo()`, `can_redo()` are false;
after a `compress()` it restores the oldest entry that survived, which is the oldest entry
from before the `compress()`. -/
theorem C9_reset_shape :
    (∀ (T : Type) (s : Rollback T), Valid s →
      ∃ a s1, deque_at s.data 0 = some a ∧ reset s = .ret a s1 ∧
        s1.data = [a] ∧ s1.index = 0 ∧ size s1 = 1 ∧ get s1 = .ret a s1 ∧
        can_undo s1 = false ∧ can_redo s1 = false) ∧
    (∀ (T : Type) (s : Rollback T), Valid s →
      ∃ a b s1, deque_at s.data 0 = some a ∧ compress s = .ret b s1 ∧
        deque_at s1.data 0 = some a ∧ reset s1 = .ret a ⟨[a], 0⟩) := by
  constructor
  · intro T s h
    obtain ⟨a, ha, hr⟩ := reset_of_valid s h
    exact ⟨a, ⟨[a], 0⟩, ha, hr, rfl, rfl, rfl, rfl, rfl, rfl⟩
  · intro T s h
    obtain ⟨a, b, ha, _, hc⟩ := compress_of_valid s h
    exact ⟨a, b, ⟨[a, b], 1⟩, ha, hc, rfl, rfl⟩

/-- C9 at the container `[3, 5, 10]` with the cursor on `5`. -/
theorem C9_reset_shape_witness :
    (Valid (⟨[3, 5, 10], 1⟩ : Rollback Int) ∧
      reset (⟨[3, 5, 10], 1⟩ : Rollback Int) = .ret 3 ⟨[3], 0⟩ ∧
      ∃ a s1, deque_at ([3, 5, 10] : List Int) 0 = some a ∧
        reset (⟨[3, 5, 10], 1⟩ : Rollback Int) = .ret a s1 ∧
        s1.data = [a] ∧ s1.index = 0 ∧ size s1 = 1 ∧ get s1 = .ret a s1 ∧
        can_undo s1 = false ∧ can_redo s1 = false) ∧
    (Valid (⟨[3, 5, 10], 2⟩ : Rollback Int) ∧
      ∃ a b s1, deque_at ([3, 5, 10] : List Int) 0 = some a ∧
        compress (⟨[3, 5, 10], 2⟩ : Rollback Int) = .ret b s1 ∧
        deque_at s1.data 0 = some a ∧ reset s1 = .ret a ⟨[a], 0⟩) :=
  ⟨⟨by decide, by decide, C9_reset_shape.1 Int ⟨[3, 5, 10], 1⟩ (by decide)⟩,
   ⟨by decide, C9_reset_shape.2 Int ⟨[3, 5, 10], 2⟩ (by decide)⟩⟩

/-- C10: on a valid container with current value `cur`, each of `+=`, `-=`, `*=`, `/=`
with operand `t` commits `cur op t` for its own operation `op`: it returns that value,
which is the new `get()`, and leaves exactly the container `set(cur op t)` produces (the
entries up to the old cursor, then the new value, cursor on it); for `/=` whenever `T`
computes the quotient.  On the 32-bit `int`: `+=`, `-=`, `*=` commit the result of `int`'s
own operation, which is the mathematical sum, difference or product whenever an `int` can
hold it (and its reduction modulo `2^32` otherwise); `/=` commits the quotient truncated
toward zero whenever `t ≠ 0` and the quotient is not `INT_MIN / -1`, and in those two
cases it does not return and leaves the container as it was. -/
theorem C10_compound_assignment :
    (∀ (T : Type) [Arith T] (s : Rollback T) (t cur : T), Valid s → get s = .ret cur s →
      Commits s (Arith.add cur t) (add_assign s t) ∧
      Commits s (Arith.sub cur t) (sub_assign s t) ∧
      Commits s (Arith.mul cur t) (mul_assign s t) ∧
      (∀ q, Arith.div cur t = some q → Commits s q (div_assign s t))) ∧
    (∀ (s : Rollback Int) (t cur : Int), Valid s → get s = .ret cur s →
      (in_int (cur + t) → Commits s (cur + t) (add_assign s t)) ∧
      (in_int (cur - t) → Commits s (cur - t) (sub_assign s t)) ∧
      (in_int (cur * t) → Commits s (cur * t) (mul_assign s t)) ∧
      (t ≠ 0 → ¬ (cur = INT_MIN ∧ t = -1) →
        Commits s (Int.tdiv cur t) (div_assign s t)) ∧
      (Commits s (wrap_int (cur + t)) (add_assign s t) ∧
        Commits s (wrap_int (cur - t)) (sub_assign s t) ∧
        Commits s (wrap_int (cur * t)) (mul_assign s t)) ∧
      (t = 0 ∨ (cur = INT_MIN ∧ t = -1) → div_assign s t = .abort s)) ∧
    (add_assign (Rollback.construct (2147483647 : Int)) 1
        = .ret (-2147483648) ⟨[2147483647, -2147483648], 1⟩ ∧
      div_assign (Rollback.construct (-2147483648 : Int)) (-1)
        = .abort (Rollback.construct (-2147483648))) := by
  have key : ∀ (T : Type) (s : Rollback T) (cur : T) (f : T → Option T) (v : T),
      Valid s → get s = .ret cur s → f cur = some v → Commits s v (commit_with s f) := by
    intro T s cur f v h hget hf
    exact commits_of_valid s v _ h (commit_with_some s f cur v h (at_of_get hget) hf)
  refine ⟨?_, ?_, by decide, by decide⟩
  · intro T _ s t cur h hget
    exact ⟨key T s cur _ _ h hget rfl, key T s cur _ _ h hget rfl, key T s cur _ _ h hget rfl,
      fun q hq => key T s cur _ q h hget hq⟩
  · intro s t cur h hget
    have hadd : Commits s (wrap_int (cur + t)) (add_assign s t) := key Int s cur _ _ h hget rfl
    have hsub : Commits s (wrap_int (cur - t)) (sub_assign s t) := key Int s cur _ _ h hget rfl
    have hmul : Commits s (wrap_int (cur * t)) (mul_assign s t) := key Int s cur _ _ h hget rfl
    refine ⟨fun hr => ?_, fun hr => ?_, fun hr => ?_, fun ht hq => ?_, ⟨hadd, hsub, hmul⟩,
      fun hf => ?_⟩
    · rw [wrap_int_of_in_int _ hr] at hadd
      exact hadd
    · rw [wrap_int_of_in_int _ hr] at hsub
      exact hsub
    · rw [wrap_int_of_in_int _ hr] at hmul
      exact hmul
    · exact key Int s cur _ _ h hget (int_div_some cur t ht hq)
    · exact commit_with_none s _ cur (at_of_get hget) ((int_div_none_iff cur t).1.mpr hf)

/-- C10 on `int`, at the container `[0, 5, -7, 10]` with the cursor on `-7` and the
operand `2`. -/
theorem C10_compound_assignment_witness :
    Valid (⟨[0, 5, -7, 10], 2⟩ : Rollback Int) ∧
    add_assign (⟨[0, 5, -7, 10], 2⟩ : Rollback Int) 2 = .ret (-5) ⟨[0, 5, -7, -5], 3⟩ ∧
    sub_assign (⟨[0, 5, -7, 10], 2⟩ : Rollback Int) 2 = .ret (-9) ⟨[0, 5, -7, -9], 3⟩ ∧
    mul_assign (⟨[0, 5, -7, 10], 2⟩ : Rollback Int) 2 = .ret (-14) ⟨[0, 5, -7, -14], 3⟩ ∧
    div_assign (⟨[0, 5, -7, 10], 2⟩ : Rollback Int) 2 = .ret (-3) ⟨[0, 5, -7, -3], 3⟩ ∧
    (in_int (-7 + 2) ∧ in_int (-7 - 2) ∧ in_int (-7 * 2) ∧ (2 : Int) ≠ 0 ∧
      ¬ ((-7 : Int) = INT_MIN ∧ (2 : Int) = -1)) ∧
    (Commits (⟨[0, 5, -7, 10], 2⟩ : Rollback Int) (-7 + 2)
        (add_assign (⟨[0, 5, -7, 10], 2⟩ : Rollback Int) 2) ∧
      Commits (⟨[0, 5, -7, 10], 2⟩ : Rollback Int) (-7 - 2)
        (sub_assign (⟨[0, 5, -7, 10], 2⟩ : Rollback Int) 2) ∧
      Commits (⟨[0, 5, -7, 10], 2⟩ : Rollback Int) (-7 * 2)
        (mul_assign (⟨[0, 5, -7, 10], 2⟩ : Rollback Int) 2) ∧
      Commits (⟨[0, 5, -7, 10], 2⟩ : Rollback Int) (Int.tdiv (-7) 2)
        (div_assign (⟨[0, 5, -7, 10], 2⟩ : Rollback Int) 2)) :=
  have h := C10_compound_assignment.2.1 ⟨[0, 5, -7, 10], 2⟩ 2 (-7) (by decide) (by decide)
  ⟨by decide, by decide, by decide, by decide, by decide,
   ⟨by decide, by decide, by decide, by decide, by decide⟩,
   ⟨h.1 (by decide), h.2.1 (by decide), h.2.2.1 (by decide),
    h.2.2.2.1 (by decide) (by decide)⟩⟩

/-- C11, the code at `Rollback<int> x(7); x %= 3;`: the source's `%=` commits the quotient
`7 / 3 = 2` (it is `/=` under another name), where `7 % 3` is `1`; the call is not a commit
of `7 % 3`. -/
theorem C11_mod_assign_commits_quotient :
    mod_assign (Rollback.construct (7 : Int)) 3 = .ret 2 ⟨[7, 2], 1⟩ ∧
    get (⟨[7, 2], 1⟩ : Rollback Int) = .ret 2 ⟨[7, 2], 1⟩ ∧
    (Arith.mod (7 : Int) 3 = some 1 ∧ Arith.div (7 : Int) 3 = some 2) ∧
    set (Rollback.construct (7 : Int)) 1 = .ret () ⟨[7, 1], 1⟩ ∧
    ¬ Commits (Rollback.construct (7 : Int)) 1 (mod_assign (Rollback.construct (7 : Int)) 3) ∧
    (∀ (T : Type) [Arith T] (s : Rollback T) (t : T), mod_assign s t = div_assign s t) := by
  refine ⟨by decide, by decide, ⟨by decide, by decide⟩, by decide, ?_, fun _ _ _ _ => rfl⟩
  rintro ⟨s1, _, ho, _⟩
  have hm : mod_assign (Rollback.construct (7 : Int)) 3 = .ret 2 ⟨[7, 2], 1⟩ := by decide
  rw [hm] at ho
  injection ho with hv _
  exact absurd hv (by decide)

/-- C12: on a valid container with current value `c`, pre-increment returns `c + 1` and
post-increment returns `c`, and both leave the container `set(c + 1)` produces: the entries
up to the old cursor, then `c + 1`, the cursor on it, `can_redo()` false; from seed `0`,
`++x` returns `1`, then `x++` returns `1` and `get()` is `2`. -/
theorem C12_increment_duality :
    (∀ (T : Type) [Arith T] (s : Rollback T) (c : T), Valid s → get s = .ret c s →
      ∃ s1, set s (Arith.add c Arith.one) = .ret () s1 ∧
        pre_increment s = .ret (Arith.add c Arith.one) s1 ∧
        post_increment s = .ret c s1 ∧
        s1.data = s.data.take (s.index + 1) ++ [Arith.add c Arith.one] ∧
        s1.index = size s1 - 1 ∧
        get s1 = .ret (Arith.add c Arith.one) s1 ∧
        can_redo s1 = false) ∧
    (pre_increment (Rollback.construct (0 : Int)) = .ret 1 ⟨[0, 1], 1⟩ ∧
      post_increment (⟨[0, 1], 1⟩ : Rollback Int) = .ret 1 ⟨[0, 1, 2], 2⟩ ∧
      get (⟨[0, 1, 2], 2⟩ : Rollback Int) = .ret 2 ⟨[0, 1, 2], 2⟩) := by
  refine ⟨?_, by decide, by decide, by decide⟩
  intro T _ s c h hget
  have hcur := at_of_get hget
  have hl := length_take_succ (d := s.data) (i := s.index) h.2.2
  refine ⟨_, set_of_valid s _ h, commit_with_some s _ c _ h hcur rfl,
    post_increment_of_at s c h hcur, rfl, ?_, get_after_set s _ h, can_redo_after_set s _ h⟩
  unfold size
  simp only [List.length_append, List.length_singleton, hl]
  omega

/-- C12 on the integers, at the container `[0, 5, 10]` with the cursor on `5`. -/
theorem C12_increment_duality_witness :
    Valid (⟨[0, 5, 10], 1⟩ : Rollback Int) ∧
    pre_increment (⟨[0, 5, 10], 1⟩ : Rollback Int) = .ret 6 ⟨[0, 5, 6], 2⟩ ∧
    post_increment (⟨[0, 5, 10], 1⟩ : Rollback Int) = .ret 5 ⟨[0, 5, 6], 2⟩ ∧
    ∃ s1, set (⟨[0, 5, 10], 1⟩ : Rollback Int) (Arith.add 5 Arith.one) = .ret () s1 ∧
      pre_increment (⟨[0, 5, 10], 1⟩ : Rollback Int) = .ret (Arith.add 5 Arith.one) s1 ∧
      post_increment (⟨[0, 5, 10], 1⟩ : Rollback Int) = .ret 5 s1 ∧
      s1.data = ([0, 5, 10] : List Int).take (1 + 1) ++ [Arith.add 5 Arith.one] ∧
      s1.index = size s1 - 1 ∧
      get s1 = .ret (Arith.add 5 Arith.one) s1 ∧
      can_redo s1 = false :=
  ⟨by decide, by decide, by decide,
   C12_increment_duality.1 Int ⟨[0, 5, 10], 1⟩ 5 (by decide) (by decide)⟩

/-- C13, the code at `Rollback<int> x(5); x--;`: the source's post-decrement commits
`5 - 1 = 4` through `set` and then has no value to return (its `return T;` names the type),
where its sibling post-increment returns the copy `5` it took before `set`. -/
theorem C13_post_decrement_returns_no_value :
    post_decrement (Rollback.construct (5 : Int)) = .ret () ⟨[5, 4], 1⟩ ∧
    set (Rollback.construct (5 : Int)) 4 = .ret () ⟨[5, 4], 1⟩ ∧
    post_increment (Rollback.construct (5 : Int)) = .ret 5 ⟨[5, 6], 1⟩ :=
  ⟨by decide, by decide, by decide⟩

/-- C14: on a valid container with current value `cur`, a `/=` or `%=` whose computation
`cur / t` gives no value does not return and leaves entries and cursor as they were; in
general a `/=` or `%=` that does not return has left the container unchanged; on the
32-bit `int` a zero divisor is such a case, `/` and `%` having no value exactly on the
divisor `0` and on `INT_MIN / -1`. -/
theorem C14_failed_division_leaves_buffer :
    (∀ (T : Type) [Arith T] (s : Rollback T) (t cur : T), Valid s → get s = .ret cur s →
      Arith.div cur t = none →
      div_assign s t = .abort s ∧ mod_assign s t = .abort s) ∧
    (∀ (T : Type) [Arith T] (s s1 : Rollback T) (t : T), Valid s →
      (div_assign s t = .abort s1 → s1 = s) ∧ (mod_assign s t = .abort s1 → s1 = s)) ∧
    (∀ (s : Rollback Int), Valid s →
      div_assign s 0 = .abort s ∧ mod_assign s 0 = .abort s) ∧
    (∀ a b : Int,
      (Arith.div a b = none ↔ (b = 0 ∨ (a = INT_MIN ∧ b = -1))) ∧
      (Arith.mod a b = none ↔ (b = 0 ∨ (a = INT_MIN ∧ b = -1)))) := by
  refine ⟨?_, ?_, ?_, int_div_none_iff⟩
  · intro T _ s t cur _ hget hdiv
    have hcur := at_of_get hget
    exact ⟨commit_with_none s _ cur hcur hdiv, commit_with_none s _ cur hcur hdiv⟩
  · intro T _ s s1 t h
    exact ⟨fun ha => commit_with_abort s s1 _ h ha, fun ha => commit_with_abort s s1 _ h ha⟩
  · intro s h
    obtain ⟨cur, hcur⟩ := at_of_valid h
    exact ⟨commit_with_none s _ cur hcur (int_div_zero cur),
      commit_with_none s _ cur hcur (int_div_zero cur)⟩

/-- C14 on the integers, at the container `[0, 5, 10]` with the cursor on `5` and the
divisor `0`. -/
theorem C14_failed_division_leaves_buffer_witness :
    Valid (⟨[0, 5, 10], 1⟩ : Rollback Int) ∧
    get (⟨[0, 5, 10], 1⟩ : Rollback Int) = .ret 5 ⟨[0, 5, 10], 1⟩ ∧
    Arith.div (5 : Int) 0 = none ∧
    (div_assign (⟨[0, 5, 10], 1⟩ : Rollback Int) 0 = .abort ⟨[0, 5, 10], 1⟩ ∧
      mod_assign (⟨[0, 5, 10], 1⟩ : Rollback Int) 0 = .abort ⟨[0, 5, 10], 1⟩) :=
  ⟨by decide, by decide, by decide,
   C14_failed_division_leaves_buffer.1 Int ⟨[0, 5, 10], 1⟩ 0 5 (by decide) (by decide)
     (by decide)⟩

/-- C15: on a valid container with current value `c` and for every external `t`, the
non-mutating operators keep the operand order and use the current value: `x op t` is
`c op t` and `t op x` is `t op c` for `+ - * / %` (so `t - x` is `t - c`, not `c - t`),
for `/` and `%` whenever `T` computes the result; the conversion to `T` yields `c` and `!x`
yields `!c`; and every one of them, also a `/` or `%` without a result, leaves entries and
cursor unchanged. -/
theorem C15_non_mutating_operators :
    (∀ (T : Type) [Arith T] (s : Rollback T) (t c : T), Valid s → get s = .ret c s →
      (operator_add s t = .ret (Arith.add c t) s ∧
        operator_sub s t = .ret (Arith.sub c t) s ∧
        operator_mul s t = .ret (Arith.mul c t) s ∧
        (∀ q, Arith.div c t = some q → operator_div s t = .ret q s) ∧
        (∀ q, Arith.mod c t = some q → operator_mod s t = .ret q s)) ∧
      (free_add t s = .ret (Arith.add t c) s ∧
        free_sub t s = .ret (Arith.sub t c) s ∧
        free_mul t s = .ret (Arith.mul t c) s ∧
        (∀ q, Arith.div t c = some q → free_div t s = .ret q s) ∧
        (∀ q, Arith.mod t c = some q → free_mod t s = .ret q s)) ∧
      (operator_T s = .ret c s ∧ operator_not s = .ret (!Arith.toBool c) s) ∧
      ((operator_div s t).state = s ∧ (operator_mod s t).state = s ∧
        (free_div t s).state = s ∧ (free_mod t s).state = s)) ∧
    (free_sub (10 : Int) ⟨[0, 3], 1⟩ = .ret 7 ⟨[0, 3], 1⟩ ∧
      operator_sub (⟨[0, 3], 1⟩ : Rollback Int) 10 = .ret (-7) ⟨[0, 3], 1⟩) := by
  refine ⟨?_, by decide, by decide⟩
  intro T _ s t c _ hget
  have hcur := at_of_get hget
  refine ⟨⟨read_with_some s _ c _ hcur rfl, read_with_some s _ c _ hcur rfl,
      read_with_some s _ c _ hcur rfl, fun q hq => read_with_some s _ c q hcur hq,
      fun q hq => read_with_some s _ c q hcur hq⟩,
    ⟨free_with_some s _ c _ hcur rfl, free_with_some s _ c _ hcur rfl,
      free_with_some s _ c _ hcur rfl, fun q hq => free_with_some s _ c q hcur hq,
      fun q hq => free_with_some s _ c q hcur hq⟩,
    ⟨?_, ?_⟩,
    ⟨read_with_state s _, read_with_state s _, free_with_state s _, free_with_state s _⟩⟩
  · unfold operator_T
    rw [hcur]
  · unfold operator_not
    rw [hcur]

/-- C15 on the integers, at the container `[0, 5, 7, 10]` with the cursor on `7` and the
external operand `2`. -/
theorem C15_non_mutating_operators_witness :
    Valid (⟨[0, 5, 7, 10], 2⟩ : Rollback Int) ∧
    (operator_div (⟨[0, 5, 7, 10], 2⟩ : Rollback Int) 2 = .ret 3 ⟨[0, 5, 7, 10], 2⟩ ∧
      operator_mod (⟨[0, 5, 7, 10], 2⟩ : Rollback Int) 2 = .ret 1 ⟨[0, 5, 7, 10], 2⟩ ∧
      free_div (2 : Int) ⟨[0, 5, 7, 10], 2⟩ = .ret 0 ⟨[0, 5, 7, 10], 2⟩ ∧
      free_mod (2 : Int) ⟨[0, 5, 7, 10], 2⟩ = .ret 2 ⟨[0, 5, 7, 10], 2⟩) ∧
    (operator_add (⟨[0, 5, 7, 10], 2⟩ : Rollback Int) 2
        = .ret (Arith.add 7 2) ⟨[0, 5, 7, 10], 2⟩ ∧
      operator_sub (⟨[0, 5, 7, 10], 2⟩ : Rollback Int) 2
        = .ret (Arith.sub 7 2) ⟨[0, 5, 7, 10], 2⟩ ∧
      operator_mul (⟨[0, 5, 7, 10], 2⟩ : Rollback Int) 2
        = .ret (Arith.mul 7 2) ⟨[0, 5, 7, 10], 2⟩ ∧
      (∀ q, Arith.div (7 : Int) 2 = some q →
        operator_div (⟨[0, 5, 7, 10], 2⟩ : Rollback Int) 2 = .ret q ⟨[0, 5, 7, 10], 2⟩) ∧
      (∀ q, Arith.mod (7 : Int) 2 = some q →
        operator_mod (⟨[0, 5, 7, 10], 2⟩ : Rollback Int) 2 = .ret q ⟨[0, 5, 7, 10], 2⟩)) :=
  ⟨by decide, ⟨by decide, by decide, by decide, by decide⟩,
   (C15_non_mutating_operators.1 Int ⟨[0, 5, 7, 10], 2⟩ 2 7 (by decide) (by decide)).1⟩

/-- C16: `can_undo()` is true exactly when `cursor > 0`, and on a valid container
`can_redo()` is true exactly when `cursor < size() - 1`; on a valid container `undo()`
returns and changes the cursor if and only if `can_undo()` was true before, and then lowers
it by one; `redo()` returns and changes the cursor if and only if `can_redo()` was true
before, and then raises it by one. -/
theorem C16_can_undo_can_redo :
    (∀ (T : Type) (s : Rollback T), can_undo s = true ↔ s.index > 0) ∧
    (∀ (T : Type) (s : Rollback T), Valid s →
      (can_redo s = true ↔ s.index < size s - 1)) ∧
    (∀ (T : Type) (s : Rollback T), Valid s →
      ∃ v s1, undo s = .ret v s1 ∧
        (s1.index ≠ s.index ↔ can_undo s = true) ∧
        (can_undo s = true → s1.index + 1 = s.index) ∧
        (can_undo s = false → s1 = s)) ∧
    (∀ (T : Type) (s : Rollback T), Valid s →
      ∃ v s1, redo s = .ret v s1 ∧
        (s1.index ≠ s.index ↔ can_redo s = true) ∧
        (can_redo s = true → s1.index = s.index + 1) ∧
        (can_redo s = false → s1 = s)) := by
  have hredo : ∀ (T : Type) (s : Rollback T), Valid s →
      (can_redo s = true ↔ s.index < size s - 1) := by
    intro T s h
    have h1 := h.1
    unfold can_redo
    unfold size at h1 ⊢
    rw [size_minus_one_pos (by omega)]
    simp
  refine ⟨fun T s => by unfold can_undo; simp, hredo, ?_, ?_⟩
  · intro T s h
    obtain ⟨v, _, he⟩ := undo_of_valid s h
    refine ⟨v, _, he, ?_, ?_, ?_⟩
    · unfold can_undo
      simp only [decide_eq_true_eq]
      omega
    · unfold can_undo
      simp only [decide_eq_true_eq]
      omega
    · unfold can_undo
      simp only [decide_eq_false_iff_not]
      intro h0
      cases s with
      | mk data index =>
        simp only at h0 ⊢
        have : index = 0 := by omega
        subst this
        rfl
  · intro T s h
    obtain ⟨v, _, he⟩ := redo_of_valid s h
    have hlt := h.2.2
    have hr := hredo T s h
    unfold size at hlt hr
    refine ⟨v, _, he, ?_, ?_, ?_⟩
    · rw [hr]
      simp only
      have := Nat.min_le_left (s.index + 1) (s.data.length - 1)
      have := Nat.min_le_right (s.index + 1) (s.data.length - 1)
      constructor
      · intro hne
        by_contra hc
        apply hne
        rw [Nat.min_eq_right (by omega)]
        omega
      · intro hc
        rw [Nat.min_eq_left (by omega)]
        omega
    · rw [hr]
      intro hc
      simp only
      rw [Nat.min_eq_left (by omega)]
    · intro hf
      have hnot : ¬ s.index < s.data.length - 1 := by
        intro hc
        rw [hr.mpr hc] at hf
        exact absurd hf (by decide)
      have hm : min (s.index + 1) (s.data.length - 1) = s.index := by
        rw [Nat.min_eq_right (by omega)]
        omega
      rw [hm]

/-- C16 at the container `[0, 5, 10]`: `undo()` and `redo()` with the cursor on `5`, and
`redo()` with the cursor on `10`. -/
theorem C16_can_undo_can_redo_witness :
    (Valid (⟨[0, 5, 10], 1⟩ : Rollback Int) ∧
      undo (⟨[0, 5, 10], 1⟩ : Rollback Int) = .ret 0 ⟨[0, 5, 10], 0⟩ ∧
      redo (⟨[0, 5, 10], 1⟩ : Rollback Int) = .ret 10 ⟨[0, 5, 10], 2⟩ ∧
      (can_redo (⟨[0, 5, 10], 1⟩ : Rollback Int) = true ↔
        1 < size (⟨[0, 5, 10], 1⟩ : Rollback Int) - 1)) ∧
    (Valid (⟨[0, 5, 10], 2⟩ : Rollback Int) ∧
      can_redo (⟨[0, 5, 10], 2⟩ : Rollback Int) = false ∧
      ∃ v s1, redo (⟨[0, 5, 10], 2⟩ : Rollback Int) = .ret v s1 ∧
        (s1.index ≠ 2 ↔ can_redo (⟨[0, 5, 10], 2⟩ : Rollback Int) = true) ∧
        (can_redo (⟨[0, 5, 10], 2⟩ : Rollback Int) = true → s1.index = 2 + 1) ∧
        (can_redo (⟨[0, 5, 10], 2⟩ : Rollback Int) = false → s1 = ⟨[0, 5, 10], 2⟩)) :=
  ⟨⟨by decide, by decide, by decide,
    C16_can_undo_can_redo.2.1 Int ⟨[0, 5, 10], 1⟩ (by decide)⟩,
   ⟨by decide, by decide, C16_can_undo_can_redo.2.2.2 Int ⟨[0, 5, 10], 2⟩ (by decide)⟩⟩

/-- C17, the code at `Rollback<int> a(0), b(1); a = b;`: the source's
`operator =(Rollback<T>)` starts by calling itself, so whatever the allowed depth of nested
calls, the call has not returned (for these and for all containers): it neither terminates
nor copies anything. -/
theorem C17_container_assignment_never_returns :
    operator_assign 1000 (Rollback.construct (0 : Int)) (Rollback.construct 1)
      = .still_calling ∧
    (∀ depth : Nat,
      operator_assign depth (Rollback.construct (0 : Int)) (Rollback.construct 1)
        = .still_calling) ∧
    (∀ (T : Type) (depth : Nat) (a b a1 b1 : Rollback T),
      operator_assign depth a b ≠ .returned a1 b1) := by
  refine ⟨operator_assign_still_calling _ _ _, fun d => operator_assign_still_calling d _ _,
    ?_⟩
  intro T depth a b a1 b1 h
  rw [operator_assign_still_calling] at h
  cases h

/-- C18: in every container reachable from construction by a finite sequence of public
calls, the bounds-checked lookup `data.at(index)` is in range: `get()` returns
`entries[cursor]`, as do the conversion to `T` and the lookups of the arithmetic operators,
and `undo`, `redo`, `<< n` and `>> n` return as well. -/
theorem C18_get_never_fails :
    ∀ (T : Type) [Arith T] (s : Rollback T), Reachable s →
      ∃ v, deque_at s.data s.index = some v ∧ get s = .ret v s ∧
        operator_T s = .ret v s ∧
        (∀ t, operator_add s t = .ret (Arith.add v t) s ∧
          ∃ s1, add_assign s t = .ret (Arith.add v t) s1) ∧
        (∃ v1 s1, undo s = .ret v1 s1) ∧
        (∃ v1 s1, redo s = .ret v1 s1) ∧
        (∀ n, ∃ v1 s1, shift_left s n = .ret v1 s1) ∧
        (∀ n, ∃ v1 s1, shift_right s n = .ret v1 s1) := by
  intro T _ s hr
  have h := valid_of_reachable hr
  obtain ⟨v, hv⟩ := at_of_valid h
  refine ⟨v, hv, get_of_at hv, ?_, ?_, ?_, ?_, ?_, ?_⟩
  · unfold operator_T
    rw [hv]
  · intro t
    exact ⟨read_with_some s _ v _ hv rfl, _, commit_with_some s _ v _ h hv rfl⟩
  · obtain ⟨v1, _, he⟩ := undo_of_valid s h
    exact ⟨v1, _, he⟩
  · obtain ⟨v1, _, he⟩ := redo_of_valid s h
    exact ⟨v1, _, he⟩
  · intro n
    obtain ⟨v1, _, he⟩ := shift_left_of_valid s n h
    exact ⟨v1, _, he⟩
  · intro n
    obtain ⟨v1, _, he⟩ := shift_right_of_valid s n h
    exact ⟨v1, _, he⟩

/-- C18 at the container reached from seed `0` by `set(5)`, `set(10)`, `undo()`,
`compress()`, `+= 3`, `<< 1`. -/
theorem C18_get_never_fails_witness :
    (run (Rollback.construct (0 : Int))
        [.set 5, .set 10, .undo, .compress, .add_assign 3, .shift_left 1]).state
      = ⟨[0, 10, 13], 1⟩ ∧
    get (⟨[0, 10, 13], 1⟩ : Rollback Int) = .ret 10 ⟨[0, 10, 13], 1⟩ ∧
    ∃ v, deque_at ([0, 10, 13] : List Int) 1 = some v ∧
      get (⟨[0, 10, 13], 1⟩ : Rollback Int) = .ret v ⟨[0, 10, 13], 1⟩ ∧
      operator_T (⟨[0, 10, 13], 1⟩ : Rollback Int) = .ret v ⟨[0, 10, 13], 1⟩ ∧
      (∀ t, operator_add (⟨[0, 10, 13], 1⟩ : Rollback Int) t
          = .ret (Arith.add v t) ⟨[0, 10, 13], 1⟩ ∧
        ∃ s1, add_assign (⟨[0, 10, 13], 1⟩ : Rollback Int) t = .ret (Arith.add v t) s1) ∧
      (∃ v1 s1, undo (⟨[0, 10, 13], 1⟩ : Rollback Int) = .ret v1 s1) ∧
      (∃ v1 s1, redo (⟨[0, 10, 13], 1⟩ : Rollback Int) = .ret v1 s1) ∧
      (∀ n, ∃ v1 s1, shift_left (⟨[0, 10, 13], 1⟩ : Rollback Int) n = .ret v1 s1) ∧
      (∀ n, ∃ v1 s1, shift_right (⟨[0, 10, 13], 1⟩ : Rollback Int) n = .ret v1 s1) :=
  ⟨by decide, by decide,
   C18_get_never_fails Int ⟨[0, 10, 13], 1⟩
     ⟨0, [.set 5, .set 10, .undo, .compress, .add_assign 3, .shift_left 1], by decide⟩⟩

/-- C19: on a valid container `undo()`, `redo()`, `<< n` and `>> n` return and leave the
entries sequence, and so `size()`, exactly as it was; on any container whatever, they leave
the entries untouched: only the cursor may change. -/
theorem C19_navigation_keeps_entries :
    (∀ (T : Type) (s : Rollback T) (n : Nat), Valid s →
      (∃ v s1, undo s = .ret v s1 ∧ s1.data = s.data ∧ size s1 = size s) ∧
      (∃ v s1, redo s = .ret v s1 ∧ s1.data = s.data ∧ size s1 = size s) ∧
      (∃ v s1, shift_left s n = .ret v s1 ∧ s1.data = s.data ∧ size s1 = size s) ∧
      (∃ v s1, shift_right s n = .ret v s1 ∧ s1.data = s.data ∧ size s1 = size s)) ∧
    (∀ (T : Type) (s : Rollback T) (n : Nat),
      (undo s).state.data = s.data ∧ (redo s).state.data = s.data ∧
      (shift_left s n).state.data = s.data ∧ (shift_right s n).state.data = s.data) := by
  constructor
  · intro T s n h
    obtain ⟨v1, _, h1⟩ := undo_of_valid s h
    obtain ⟨v2, _, h2⟩ := redo_of_valid s h
    obtain ⟨v3, _, h3⟩ := shift_left_of_valid s n h
    obtain ⟨v4, _, h4⟩ := shift_right_of_valid s n h
    exact ⟨⟨v1, _, h1, rfl, rfl⟩, ⟨v2, _, h2, rfl, rfl⟩, ⟨v3, _, h3, rfl, rfl⟩,
      ⟨v4, _, h4, rfl, rfl⟩⟩
  · intro T s n
    exact ⟨undo_state_data s, redo_state_data s, shift_left_state_data s n,
      shift_right_state_data s n⟩

/-- C19 at the container `[0, 5, 10, 7]` with the cursor on `5` and `n = 2`. -/
theorem C19_navigation_keeps_entries_witness :
    Valid (⟨[0, 5, 10, 7], 1⟩ : Rollback Int) ∧
    (undo (⟨[0, 5, 10, 7], 1⟩ : Rollback Int) = .ret 0 ⟨[0, 5, 10, 7], 0⟩ ∧
      redo (⟨[0, 5, 10, 7], 1⟩ : Rollback Int) = .ret 10 ⟨[0, 5, 10, 7], 2⟩ ∧
      shift_left (⟨[0, 5, 10, 7], 1⟩ : Rollback Int) 2 = .ret 0 ⟨[0, 5, 10, 7], 0⟩ ∧
      shift_right (⟨[0, 5, 10, 7], 1⟩ : Rollback Int) 2 = .ret 7 ⟨[0, 5, 10, 7], 3⟩) ∧
    ((∃ v s1, undo (⟨[0, 5, 10, 7], 1⟩ : Rollback Int) = .ret v s1 ∧
        s1.data = [0, 5, 10, 7] ∧ size s1 = size (⟨[0, 5, 10, 7], 1⟩ : Rollback Int)) ∧
      (∃ v s1, redo (⟨[0, 5, 10, 7], 1⟩ : Rollback Int) = .ret v s1 ∧
        s1.data = [0, 5, 10, 7] ∧ size s1 = size (⟨[0, 5, 10, 7], 1⟩ : Rollback Int)) ∧
      (∃ v s1, shift_left (⟨[0, 5, 10, 7], 1⟩ : Rollback Int) 2 = .ret v s1 ∧
        s1.data = [0, 5, 10, 7] ∧ size s1 = size (⟨[0, 5, 10, 7], 1⟩ : Rollback Int)) ∧
      (∃ v s1, shift_right (⟨[0, 5, 10, 7], 1⟩ : Rollback Int) 2 = .ret v s1 ∧
        s1.data = [0, 5, 10, 7] ∧ size s1 = size (⟨[0, 5, 10, 7], 1⟩ : Rollback Int))) :=
  ⟨by decide, ⟨by decide, by decide, by decide, by decide⟩,
   C19_navigation_keeps_entries.1 Int ⟨[0, 5, 10, 7], 1⟩ 2 (by decide)⟩

/-- C20: started with `cursor < size()`, the truncation loop of `set` (shared by both
overloads) leaves through its guard after exactly `size() - cursor - 1` pops, with the
first `cursor + 1` entries, and never pops from an empty deque: every budget of at least
that many iterations gives this result, `data.size()` being the one `set` passes, and
every smaller budget is used up with the loop still running.  The invariant is needed: with
`cursor ≥ size()` (and `cursor + 1` not wrapping as a `size_t`) the guard
`size() != cursor + 1` never becomes false, and the loop pops all `size()` entries and then
pops from the empty deque. -/
theorem C20_truncation_loop :
    (∀ (T : Type) (data : List T) (index fuel : Nat), index < data.length →
      (data.length - index - 1 ≤ fuel →
        set_loop index fuel data 0
          = .done (data.take (index + 1)) (data.length - index - 1)) ∧
      (fuel < data.length - index - 1 → set_loop index fuel data 0 = .out_of_fuel) ∧
      set_loop index data.length data 0
        = .done (data.take (index + 1)) (data.length - index - 1)) ∧
    (∀ (T : Type) (data : List T) (index fuel : Nat), data.length ≤ index →
      index + 1 < 2 ^ 64 →
      (∀ (d : List T) (p : Nat), set_loop index fuel data 0 ≠ .done d p) ∧
      (data.length ≤ fuel → set_loop index fuel data 0 = .pop_empty data.length)) ∧
    (∀ (T : Type) (s : Rollback T) (t : T), set_args s t = set s t) := by
  refine ⟨?_, ?_, fun _ _ _ => rfl⟩
  · intro T data index fuel hlt
    have hdone : ∀ f, data.length - index - 1 ≤ f →
        set_loop index f data 0
          = .done (data.take (index + 1)) (data.length - index - 1) := by
      intro f hf
      rw [set_loop_done index f data 0 hlt (by omega)]
      congr 1
      omega
    exact ⟨hdone fuel, fun hf => set_loop_short index fuel data 0 (by omega),
      hdone data.length (by omega)⟩
  · intro T data index fuel hle _
    refine ⟨set_loop_never_done index fuel data 0 hle, fun hf => ?_⟩
    rw [set_loop_pop_empty index fuel data 0 hle hf]
    congr 1
    omega

/-- C20 at the entries `[0, 5, 10, 7]`: with the cursor on `5` the loop makes two pops;
with the cursor at index `4`, outside the deque, it pops all four entries and then pops
from the empty deque. -/
theorem C20_truncation_loop_witness :
    (set_loop 1 4 ([0, 5, 10, 7] : List Int) 0 = .done [0, 5] 2 ∧
      set_loop 1 1 ([0, 5, 10, 7] : List Int) 0 = .out_of_fuel ∧
      set_loop 4 9 ([0, 5, 10, 7] : List Int) 0 = .pop_empty 4) ∧
    ((([0, 5, 10, 7] : List Int).length - 1 - 1 ≤ 4 →
        set_loop 1 4 ([0, 5, 10, 7] : List Int) 0
          = .done (([0, 5, 10, 7] : List Int).take (1 + 1))
              (([0, 5, 10, 7] : List Int).length - 1 - 1)) ∧
      (4 < ([0, 5, 10, 7] : List Int).length - 1 - 1 →
        set_loop 1 4 ([0, 5, 10, 7] : List Int) 0 = .out_of_fuel) ∧
      set_loop 1 ([0, 5, 10, 7] : List Int).length ([0, 5, 10, 7] : List Int) 0
        = .done (([0, 5, 10, 7] : List Int).take (1 + 1))
            (([0, 5, 10, 7] : List Int).length - 1 - 1)) ∧
    ((∀ (d : List Int) (p : Nat), set_loop 4 9 ([0, 5, 10, 7] : List Int) 0 ≠ .done d p) ∧
      (([0, 5, 10, 7] : List Int).length ≤ 9 →
        set_loop 4 9 ([0, 5, 10, 7] : List Int) 0
          = .pop_empty ([0, 5, 10, 7] : List Int).length)) :=
  ⟨⟨by decide, by decide, by decide⟩,
   C20_truncation_loop.1 Int [0, 5, 10, 7] 1 4 (by decide),
   C20_truncation_loop.2.1 Int [0, 5, 10, 7] 4 9 (by decide) (by decide)⟩

end my_lib
